import Mathlib

/-!
Shallow embedding of `mzn-bench`'s analysis module
(`src/mzn_bench/analysis/analyse_changes.py` and
`src/mzn_bench/analysis/report_status.py`).

Python `float` values are modelled by `PFloat`: finite values are exact
rationals (an idealisation of IEEE doubles that keeps the sign, zero and
threshold behaviour the claims are about), plus the special values
`inf`, `ninf` and `nan`.  Python raises `ZeroDivisionError` on float
division by a zero denominator, so division is fallible.  CSV rows are
association lists from column names to the raw string fields, and
`row[k]` raises `KeyError` when the column is absent, exactly as
`csv.DictReader` rows do.
-/

/-- Errors the embedded Python code can raise: `ZeroDivisionError`,
`KeyError` (missing CSV column) and `ValueError` (malformed number). -/
inductive PyErr where
  | zeroDivision : PyErr
  | keyError : String → PyErr
  | valueError : String → PyErr
deriving DecidableEq, Repr

/-- Model of a Python `float`: an exact rational for finite values, plus
infinities and NaN. -/
inductive PFloat where
  | num : ℚ → PFloat
  | inf : PFloat
  | ninf : PFloat
  | nan : PFloat
deriving DecidableEq, Repr

/-- Subtraction `a - b` on Python floats (IEEE semantics for the special
values; exact on finite values). -/
def pySub : PFloat → PFloat → PFloat
  | .nan, _ => .nan
  | _, .nan => .nan
  | .num p, .num q => .num (p - q)
  | .num _, .inf => .ninf
  | .num _, .ninf => .inf
  | .inf, .num _ => .inf
  | .inf, .inf => .nan
  | .inf, .ninf => .inf
  | .ninf, .num _ => .ninf
  | .ninf, .inf => .ninf
  | .ninf, .ninf => .nan

/-- Multiplication `a * b` on Python floats. -/
def pyMul : PFloat → PFloat → PFloat
  | .nan, _ => .nan
  | _, .nan => .nan
  | .num p, .num q => .num (p * q)
  | .num p, .inf => if p > 0 then .inf else if p < 0 then .ninf else .nan
  | .num p, .ninf => if p > 0 then .ninf else if p < 0 then .inf else .nan
  | .inf, .num q => if q > 0 then .inf else if q < 0 then .ninf else .nan
  | .ninf, .num q => if q > 0 then .ninf else if q < 0 then .inf else .nan
  | .inf, .inf => .inf
  | .inf, .ninf => .ninf
  | .ninf, .inf => .ninf
  | .ninf, .ninf => .inf

/-- Division `a / b` on Python floats.  Python raises `ZeroDivisionError`
whenever the denominator is (floating-point) zero, even for `nan/0.0` or
`inf/0.0`; otherwise IEEE semantics apply. -/
def pyDiv : PFloat → PFloat → Except PyErr PFloat
  | a, .num q =>
    if q = 0 then .error .zeroDivision
    else
      match a with
      | .nan => .ok .nan
      | .num p => .ok (.num (p / q))
      | .inf => .ok (if q > 0 then .inf else .ninf)
      | .ninf => .ok (if q > 0 then .ninf else .inf)
  | .nan, _ => .ok .nan
  | _, .nan => .ok .nan
  | .num _, .inf => .ok (.num 0)
  | .num _, .ninf => .ok (.num 0)
  | .inf, .inf => .ok .nan
  | .inf, .ninf => .ok .nan
  | .ninf, .inf => .ok .nan
  | .ninf, .ninf => .ok .nan

/-- Python `abs` on floats. -/
def pyAbs : PFloat → PFloat
  | .num p => .num |p|
  | .inf => .inf
  | .ninf => .inf
  | .nan => .nan

/-- Python `a > b` on floats; any comparison involving NaN is `False`. -/
def pyGt : PFloat → PFloat → Bool
  | .nan, _ => false
  | _, .nan => false
  | .num p, .num q => p > q
  | .num _, .inf => false
  | .num _, .ninf => true
  | .inf, .num _ => true
  | .inf, .inf => false
  | .inf, .ninf => true
  | .ninf, _ => false

/-- Python `a < b` on floats; any comparison involving NaN is `False`. -/
def pyLt : PFloat → PFloat → Bool
  | .nan, _ => false
  | _, .nan => false
  | .num p, .num q => p < q
  | .num _, .inf => true
  | .num _, .ninf => false
  | .inf, _ => false
  | .ninf, .num _ => true
  | .ninf, .inf => true
  | .ninf, .ninf => false

/-- Accumulate a list of decimal digit characters into a natural number;
`none` if some character is not a digit.  The empty list yields `0`. -/
def decDigits (l : List Char) : Option ℕ :=
  l.foldl
    (fun acc c =>
      match acc with
      | none => none
      | some a => if c.isDigit then some (a * 10 + (c.toNat - 48)) else none)
    (some 0)

/-- Raw parse of a decimal literal: optional sign, integer digits,
optional `.` and fraction digits.  Returns (negative?, integer part,
fraction part, number of fraction digits). -/
def parseDecimalParts (s : String) : Option (Bool × ℕ × ℕ × ℕ) :=
  let p : Bool × List Char :=
    match s.data with
    | '-' :: r => (true, r)
    | '+' :: r => (false, r)
    | r => (false, r)
  let ip : List Char := p.2.takeWhile (fun c => c ≠ '.')
  let fp : List Char :=
    match p.2.dropWhile (fun c => c ≠ '.') with
    | '.' :: t => t
    | other => other
  if ip.length + fp.length = 0 then none
  else
    match decDigits ip, decDigits fp with
    | some i, some f => some (p.1, i, f, fp.length)
    | _, _ => none

/-- Value of the raw parts as a rational. -/
def ratOfParts (p : Bool × ℕ × ℕ × ℕ) : ℚ :=
  (if p.1 then (-1 : ℚ) else 1) * ((p.2.1 : ℚ) + (p.2.2.1 : ℚ) / 10 ^ p.2.2.2)

/-- Model of Python's `float(s)` on plain decimal notation (the only
shape of numeric field the statistics CSV carries): `ValueError` on
anything else. -/
def pyFloat (s : String) : Except PyErr PFloat :=
  match parseDecimalParts s with
  | some p => .ok (.num (ratOfParts p))
  | none => .error (.valueError s)

/-- One CSV row as produced by `csv.DictReader`: an association list
from column name to the raw string field. -/
abbrev Row := List (String × String)

/-- Association-list lookup (the first binding wins, as in a dict). -/
def alookup {K V : Type} [DecidableEq K] (k : K) : List (K × V) → Option V
  | [] => none
  | p :: rest => if k = p.1 then some p.2 else alookup k rest

/-- Python `row[k]`: the field, or `KeyError` when the column is absent. -/
def getItem (r : Row) (k : String) : Except PyErr String :=
  match alookup k r with
  | some v => .ok v
  | none => .error (.keyError k)

/-- Python dict assignment `d[k] = v`: overwrite in place when the key is
present (keeping its position), otherwise append a new binding. -/
def dictInsert {K V : Type} [DecidableEq K] (d : List (K × V)) (k : K) (v : V) :
    List (K × V) :=
  match alookup k d with
  | some _ => d.map (fun p => if p.1 = k then (k, v) else p)
  | none => d ++ [(k, v)]

/-- Keys of an association list. -/
def dictKeys {K V : Type} (d : List (K × V)) : List K := d.map Prod.fst

/-- Value stored in `from_stats` for an instance key:
`(row["status"], float(... row["time"]), float(... row["objective"]), row["method"])`. -/
structure FromVal where
  status : String
  time : PFloat
  objective : PFloat
  method : String
deriving DecidableEq, Repr

/-- Value stored in `to_stats` for an instance key: only
`(status, time, objective)` — the to-side `method` is never read. -/
structure ToVal where
  status : String
  time : PFloat
  objective : PFloat
deriving DecidableEq, Repr

/-- Instance key `(row["model"], row["data_file"])`. -/
abbrev InstKey := String × String

/-- The comparator's result (dataclass `PerformanceChanges`):
`status_changes` is a defaultdict from `(from_status, to_status)` to the
list of instance keys, the other three are plain lists. -/
structure PerformanceChanges where
  time_delta : PFloat
  obj_delta : PFloat
  status_changes : List ((String × String) × List InstKey) := []
  time_changes : List (String × String × PFloat × PFloat) := []
  obj_changes : List (String × String × PFloat × PFloat × Bool) := []
  missing_instances : List InstKey := []
deriving DecidableEq, Repr

/-- `float(0 if row["time"] == "" else row["time"])`. -/
def parseTimeField (s : String) : Except PyErr PFloat :=
  if s = "" then .ok (.num 0) else pyFloat s

/-- `float(math.nan if row["objective"] == "" else row["objective"])`. -/
def parseObjField (s : String) : Except PyErr PFloat :=
  if s = "" then .ok .nan else pyFloat s

/-- Reads performed by `compare_configurations` on a row of the from
configuration.  Python evaluates the assigned tuple before the subscript
key, hence the read order status, time, objective, method, model,
data_file. -/
def parseFromRow (row : Row) : Except PyErr (InstKey × FromVal) := do
  let status ← getItem row "status"
  let time ← parseTimeField (← getItem row "time")
  let obj ← parseObjField (← getItem row "objective")
  let method ← getItem row "method"
  let model ← getItem row "model"
  let dataFile ← getItem row "data_file"
  pure ((model, dataFile), ⟨status, time, obj, method⟩)

/-- Reads performed by `compare_configurations` on a row of the to
configuration: the same fields except `method`, which the to-side tuple
does not include. -/
def parseToRow (row : Row) : Except PyErr (InstKey × ToVal) := do
  let status ← getItem row "status"
  let time ← parseTimeField (← getItem row "time")
  let obj ← parseObjField (← getItem row "objective")
  let model ← getItem row "model"
  let dataFile ← getItem row "data_file"
  pure ((model, dataFile), ⟨status, time, obj⟩)

/-- One iteration of the row scan in `compare_configurations`:
a row matching `from_conf` goes to `from_stats`, otherwise (elif) a row
matching `to_conf` goes to `to_stats`, other rows are ignored. -/
def scanStep (from_conf to_conf : String)
    (acc : List (InstKey × FromVal) × List (InstKey × ToVal)) (row : Row) :
    Except PyErr (List (InstKey × FromVal) × List (InstKey × ToVal)) := do
  let conf ← getItem row "configuration"
  if conf = from_conf then
    let kv ← parseFromRow row
    pure (dictInsert acc.1 kv.1 kv.2, acc.2)
  else if conf = to_conf then
    let kv ← parseToRow row
    pure (acc.1, dictInsert acc.2 kv.1 kv.2)
  else
    pure acc

/-- The single pass over all CSV rows building `from_stats` and `to_stats`. -/
def scanRows (rows : List Row) (from_conf to_conf : String) :
    Except PyErr (List (InstKey × FromVal) × List (InstKey × ToVal)) :=
  rows.foldlM (scanStep from_conf to_conf) ([], [])

/-- Condition of the timing branch: status `OPTIMAL_SOLUTION`, or
`SATISFIED` with method `"satisfy"`. -/
def timeBranch (fv : FromVal) : Prop :=
  fv.status = "OPTIMAL_SOLUTION" ∨ (fv.status = "SATISFIED" ∧ fv.method = "satisfy")

instance (fv : FromVal) : Decidable (timeBranch fv) := by
  unfold timeBranch; infer_instance

/-- Condition of the objective branch: status `SATISFIED` with a method
other than `"satisfy"`. -/
def objBranch (fv : FromVal) : Prop :=
  fv.status = "SATISFIED" ∧ fv.method ≠ "satisfy"

instance (fv : FromVal) : Decidable (objBranch fv) := by
  unfold objBranch; infer_instance

/-- `changes.status_changes[(from_status, to_status)].append(key)` on the
defaultdict: append to the existing list in place, or start a new
singleton binding. -/
def statusAppend (d : List ((String × String) × List InstKey))
    (p : String × String) (k : InstKey) : List ((String × String) × List InstKey) :=
  dictInsert d p ((alookup p d).getD [] ++ [k])

/-- Body of the classification loop of `compare_configurations` for one
entry of `from_stats`, given `to_stats.get(key, None)`. -/
def classify (ch : PerformanceChanges) (key : InstKey) (fv : FromVal)
    (tv? : Option ToVal) (time_delta obj_delta : PFloat) :
    Except PyErr PerformanceChanges :=
  match tv? with
  | none => .ok { ch with missing_instances := ch.missing_instances ++ [key] }
  | some tv =>
    if fv.status ≠ tv.status then
      .ok { ch with status_changes := statusAppend ch.status_changes (fv.status, tv.status) key }
    else if timeBranch fv then
      match pyDiv (pySub tv.time fv.time) fv.time with
      | .error e => .error e
      | .ok tc =>
        if pyGt (pyAbs tc) time_delta then
          let l := ch.time_changes ++ [(key.1, key.2, fv.time, tv.time)]
          .ok { ch with time_changes := l }
        else .ok ch
    else if objBranch fv then
      match pyDiv (pySub tv.objective fv.objective) fv.objective with
      | .error e => .error e
      | .ok oc =>
        if pyGt (pyAbs oc) obj_delta then
          let l := ch.obj_changes ++
            [(key.1, key.2, fv.objective, tv.objective, decide (fv.method = "maximize"))]
          .ok { ch with obj_changes := l }
        else .ok ch
    else .ok ch

/-- The classification loop, folded over the entries of `from_stats`. -/
def foldClassify (ts : List (InstKey × ToVal)) (time_delta obj_delta : PFloat)
    (ch : PerformanceChanges) (l : List (InstKey × FromVal)) :
    Except PyErr PerformanceChanges :=
  l.foldlM (fun c kv => classify c kv.1 kv.2 (alookup kv.1 ts) time_delta obj_delta) ch

/-- `compare_configurations(statistics, from_conf, to_conf, time_delta, obj_delta)`:
scan the rows, then classify every `from_stats` entry. -/
def compare_configurations (rows : List Row) (from_conf to_conf : String)
    (time_delta obj_delta : PFloat) : Except PyErr PerformanceChanges := do
  let st ← scanRows rows from_conf to_conf
  foldClassify st.2 time_delta obj_delta
    { time_delta := time_delta, obj_delta := obj_delta } st.1

/-- Entry of `time_changes`: `(model, data_file, from_time, to_time)`. -/
abbrev TimeEntry := String × String × PFloat × PFloat

/-- Entry of `obj_changes`: `(model, data_file, from_obj, to_obj, maximise?)`. -/
abbrev ObjEntry := String × String × PFloat × PFloat × Bool

/-- Sort key used for `time_li` in `PerformanceChanges.__str__`:
`(it[3] - it[2]) / it[2]`. -/
def timeSortKey (it : TimeEntry) : Except PyErr PFloat :=
  pyDiv (pySub it.2.2.2 it.2.2.1) it.2.2.1

/-- Sort key used for `obj_li` in `PerformanceChanges.__str__`:
`(1 if it[4] else -1) * (it[3] - it[2]) / it[2]`. -/
def objSortKey (it : ObjEntry) : Except PyErr PFloat :=
  pyDiv (pyMul (if it.2.2.2.2 then .num 1 else .num (-1)) (pySub it.2.2.2.1 it.2.2.1))
    it.2.2.1

/-- Stable insertion of `x` into an already (ascending) sorted list:
`x` goes before the first element it is strictly less than, hence after
every element it ties with. -/
def sortInsert {α : Type} (lt : α → α → Bool) (x : α) : List α → List α
  | [] => [x]
  | y :: ys => if lt x y then x :: y :: ys else y :: sortInsert lt x ys

/-- Stable ascending sort by a strict comparison, the observable contract
of Python's `sorted`. -/
def pySorted {α : Type} (lt : α → α → Bool) (l : List α) : List α :=
  l.foldl (fun acc x => sortInsert lt x acc) []

/-- Strict `<` of Python `sorted` applied to decorated `(key, element)`
pairs: compare the keys. -/
def keyLt {α : Type} (a b : PFloat × α) : Bool := pyLt a.1 b.1

/-- Decoration pass of Python's `sorted(..., key=f)`: compute the key of
every element left to right (any exception propagates), pairing each
element with its key. -/
def decorateM {α : Type} (f : α → Except PyErr PFloat) :
    List α → Except PyErr (List (PFloat × α))
  | [] => .ok []
  | x :: xs => do
    let k ← f x
    let rest ← decorateM f xs
    pure ((k, x) :: rest)

/-- The list `time_li` of `PerformanceChanges.__str__`:
`sorted(self.time_changes, key=lambda it: (it[3] - it[2]) / it[2], reverse=True)`
(the key is computed for every element first; `reverse=True` is the
stable descending order, i.e. the stable ascending sort of the reversed
list, reversed). -/
def str_time_li (ch : PerformanceChanges) : Except PyErr (List TimeEntry) := do
  let keyed ← decorateM timeSortKey ch.time_changes
  pure (((pySorted keyLt keyed.reverse).reverse).map Prod.snd)

/-- The list `obj_li` of `PerformanceChanges.__str__`:
`sorted(self.obj_changes, key=lambda it: (1 if it[4] else -1) * (it[3] - it[2]) / it[2])`. -/
def str_obj_li (ch : PerformanceChanges) : Except PyErr (List ObjEntry) := do
  let keyed ← decorateM objSortKey ch.obj_changes
  pure ((pySorted keyLt keyed).map Prod.snd)

/-- Relative change `(to - from) / from` as an exact rational, defined
for finite endpoints (the spec's notion used to state the sort orders). -/
def relChange (fromV toV : PFloat) : ℚ :=
  match fromV, toV with
  | .num a, .num b => (b - a) / a
  | _, _ => 0

/-- Relative time change of a `time_changes` entry. -/
def timeRel (e : TimeEntry) : ℚ := relChange e.2.2.1 e.2.2.2

/-- Signed relative objective change as the source computes it:
positive sign for maximise entries, negated for the rest. -/
def objRelSigned (e : ObjEntry) : ℚ :=
  (if e.2.2.2.2 then 1 else -1) * relChange e.2.2.1 e.2.2.2.1

/-- Signed relative objective change as claim C5 words it: the sign is
flipped for maximise entries. -/
def objRelClaim (e : ObjEntry) : ℚ :=
  (if e.2.2.2.2 then -1 else 1) * relChange e.2.2.1 e.2.2.2.1

/-- Grouping-key header schema of `report_status`: the `keys` list, built
exactly as in the source (the `per_model` flag is checked, and `"model"`
appended, twice). -/
def reportKeys (per_problem per_model per_instance : Bool) : List String :=
  ["configuration"]
    ++ (if per_model then ["model"] else [])
    ++ (if per_problem then ["problem"] else [])
    ++ (if per_model then ["model"] else [])
    ++ (if per_instance then ["instance"] else [])

/-- Python `Path(s).name`: the final path component. -/
def pathName (s : String) : String :=
  (((s.splitOn "/").filter (fun c => c ≠ "")).getLast?).getD ""

/-- Per-row grouping key of `report_status`: `configuration`, then
`model`, `problem` and the filename part of `data_file` according to the
flags (each at most once here, unlike the header schema). -/
def rowKey (per_problem per_model per_instance : Bool) (row : Row) :
    Except PyErr (List String) := do
  let key1 : List String := [← getItem row "configuration"]
  let key2 ← if per_model then do pure (key1 ++ [← getItem row "model"]) else pure key1
  let key3 ← if per_problem then do pure (key2 ++ [← getItem row "problem"]) else pure key2
  if per_instance then do pure (key3 ++ [pathName (← getItem row "data_file")]) else pure key3

/-- `avg_value = row.get(avg, 0); time = float(0 if avg_value == "" else avg_value)`:
a missing average column defaults to `0`, it does not raise. -/
def avgTime (row : Row) (avg : String) : Except PyErr PFloat :=
  match alookup avg row with
  | none => .ok (.num 0)
  | some v => if v = "" then .ok (.num 0) else pyFloat v

/-- Accumulated state of the `report_status` row scan: the set of seen
status values and the nested `table` dict (group key → status → times). -/
structure ReportAcc where
  seen_status : Finset String
  table : List (List String × List (String × List PFloat))
deriving DecidableEq

/-- One iteration of the `report_status` row scan: build the group key,
record the status, parse the average field, update the nested table. -/
def reportStep (per_problem per_model per_instance : Bool) (avg : String)
    (acc : ReportAcc) (row : Row) : Except PyErr ReportAcc := do
  let key ← rowKey per_problem per_model per_instance row
  let status ← getItem row "status"
  let seen := insert status acc.seen_status
  let time ← avgTime row avg
  let table' :=
    match alookup key acc.table with
    | none => dictInsert acc.table key [(status, [time])]
    | some inner =>
      match alookup status inner with
      | none => dictInsert acc.table key (dictInsert inner status [time])
      | some l => dictInsert acc.table key (dictInsert inner status (l ++ [time]))
  pure ⟨seen, table'⟩

/-- The full row scan of `report_status`. -/
def reportScan (per_problem per_model per_instance : Bool) (avg : String)
    (rows : List Row) : Except PyErr ReportAcc :=
  rows.foldlM (reportStep per_problem per_model per_instance avg) ⟨∅, []⟩

/-- `seen_status = list(seen_status); seen_status.sort(reverse=True)`:
the status columns, in descending lexicographic order. -/
def statusColumns (seen : Finset String) : List String :=
  (seen.sort (· ≤ ·)).reverse

/-- Header row passed to `tabulate`: `keys + seen_status`. -/
def reportHeaders (per_problem per_model per_instance : Bool)
    (seen : Finset String) : List String :=
  reportKeys per_problem per_model per_instance ++ statusColumns seen

/-! ### Association-list and fold helper lemmas -/

theorem alookup_mem {K V : Type} [DecidableEq K] {k : K} {v : V} {l : List (K × V)}
    (h : alookup k l = some v) : (k, v) ∈ l := by
  induction l with
  | nil => simp [alookup] at h
  | cons p rest ih =>
    obtain ⟨a, b⟩ := p
    by_cases hk : k = a
    · subst hk
      simp only [alookup, if_pos rfl] at h
      injection h with h2
      subst h2
      exact List.mem_cons_self _ _
    · simp only [alookup, if_neg hk] at h
      exact List.mem_cons_of_mem _ (ih h)

theorem mem_alookup {K V : Type} [DecidableEq K] {k : K} {v : V} {l : List (K × V)}
    (hnd : (dictKeys l).Nodup) (h : (k, v) ∈ l) : alookup k l = some v := by
  induction l with
  | nil => simp at h
  | cons p rest ih =>
    obtain ⟨a, b⟩ := p
    simp only [dictKeys, List.map_cons, List.nodup_cons] at hnd
    rcases List.mem_cons.mp h with h1 | h1
    · injection h1 with h2 h3
      subst h2; subst h3
      simp [alookup]
    · have hk : k ≠ a := by
        intro he
        subst he
        exact hnd.1 (List.mem_map.mpr ⟨(k, v), h1, rfl⟩)
      simp only [alookup, if_neg hk]
      exact ih hnd.2 h1

theorem alookup_eq_none_iff {K V : Type} [DecidableEq K] {k : K} {l : List (K × V)} :
    alookup k l = none ↔ k ∉ dictKeys l := by
  induction l with
  | nil => simp [alookup, dictKeys]
  | cons p rest ih =>
    obtain ⟨a, b⟩ := p
    by_cases hk : k = a
    · subst hk
      simp [alookup, dictKeys]
    · simp [alookup, hk, dictKeys] at ih ⊢
      exact ih

theorem dictKeys_dictInsert_present {K V : Type} [DecidableEq K] {d : List (K × V)}
    {k : K} {v₀ v : V} (h : alookup k d = some v₀) :
    dictKeys (dictInsert d k v) = dictKeys d := by
  simp only [dictInsert, h, dictKeys, List.map_map]
  refine List.map_congr_left (fun p _ => ?_)
  by_cases hp : p.1 = k <;> simp [hp]

theorem dictKeys_dictInsert_absent {K V : Type} [DecidableEq K] {d : List (K × V)}
    {k : K} {v : V} (h : alookup k d = none) :
    dictKeys (dictInsert d k v) = dictKeys d ++ [k] := by
  simp [dictInsert, h, dictKeys]

theorem nodup_dictKeys_dictInsert {K V : Type} [DecidableEq K] {d : List (K × V)}
    {k : K} {v : V} (h : (dictKeys d).Nodup) :
    (dictKeys (dictInsert d k v)).Nodup := by
  cases hl : alookup k d with
  | some v₀ => rw [dictKeys_dictInsert_present hl]; exact h
  | none =>
    rw [dictKeys_dictInsert_absent hl]
    have hk : k ∉ dictKeys d := alookup_eq_none_iff.mp hl
    simp [List.nodup_append, h, hk]

theorem alookup_map_overwrite {K V : Type} [DecidableEq K] {d : List (K × V)}
    {k : K} {v₀ v : V} (h : alookup k d = some v₀) :
    alookup k (d.map (fun p => if p.1 = k then (k, v) else p)) = some v := by
  induction d with
  | nil => simp [alookup] at h
  | cons p rest ih =>
    obtain ⟨a, b⟩ := p
    by_cases hk : k = a
    · subst hk
      simp [alookup]
    · simp only [alookup, if_neg hk] at h
      have hak : ¬ a = k := fun he => hk he.symm
      simp only [List.map_cons, if_neg hak]
      rw [alookup, if_neg hk]
      exact ih h

theorem alookup_map_overwrite_ne {K V : Type} [DecidableEq K] {d : List (K × V)}
    {k k' : K} {v : V} (h : k' ≠ k) :
    alookup k' (d.map (fun p => if p.1 = k then (k, v) else p)) = alookup k' d := by
  induction d with
  | nil => simp [alookup]
  | cons p rest ih =>
    obtain ⟨a, b⟩ := p
    by_cases hak : a = k
    · subst hak
      simp [alookup, h, ih]
    · simp only [List.map_cons, if_neg hak]
      by_cases hk' : k' = a
      · subst hk'
        simp [alookup]
      · rw [alookup, if_neg hk', alookup, if_neg hk']
        exact ih

theorem alookup_dictInsert_self {K V : Type} [DecidableEq K] (d : List (K × V))
    (k : K) (v : V) : alookup k (dictInsert d k v) = some v := by
  cases hl : alookup k d with
  | none =>
    simp only [dictInsert, hl]
    induction d with
    | nil => simp [alookup]
    | cons p rest ih =>
      obtain ⟨a, b⟩ := p
      by_cases hk : k = a
      · simp [alookup, hk] at hl
      · simp only [alookup, if_neg hk] at hl
        simp only [List.cons_append]
        rw [alookup, if_neg hk]
        exact ih hl
  | some v₀ =>
    simp only [dictInsert, hl]
    exact alookup_map_overwrite hl

theorem alookup_dictInsert_ne {K V : Type} [DecidableEq K] (d : List (K × V))
    {k k' : K} (v : V) (h : k' ≠ k) :
    alookup k' (dictInsert d k v) = alookup k' d := by
  cases hl : alookup k d with
  | none =>
    simp only [dictInsert, hl]
    induction d with
    | nil => simp [alookup, h]
    | cons p rest ih =>
      obtain ⟨a, b⟩ := p
      by_cases hk : k' = a
      · simp [alookup, hk]
      · simp only [List.cons_append]
        rw [alookup, if_neg hk, alookup, if_neg hk]
        by_cases hka : k = a
        · simp [alookup, hka] at hl
        · simp only [alookup, if_neg hka] at hl
          exact ih hl
  | some v₀ =>
    simp only [dictInsert, hl]
    exact alookup_map_overwrite_ne h

/-! ### Except-monad fold helpers -/

theorem exceptOkBind {ε α β : Type} (a : α) (g : α → Except ε β) :
    (Except.ok a >>= g) = g a := rfl

theorem exceptErrBind {ε α β : Type} (e : ε) (g : α → Except ε β) :
    ((Except.error e : Except ε α) >>= g) = .error e := rfl

theorem foldlM_except_cons {σ α : Type} (f : σ → α → Except PyErr σ) (s : σ)
    (a : α) (l : List α) :
    (a :: l).foldlM f s = (f s a) >>= (fun s' => l.foldlM f s') := by
  simp [List.foldlM]

theorem foldlM_except_append {σ α : Type} (f : σ → α → Except PyErr σ) (s : σ)
    (l₁ l₂ : List α) :
    (l₁ ++ l₂).foldlM f s = (l₁.foldlM f s) >>= (fun s' => l₂.foldlM f s') := by
  induction l₁ generalizing s with
  | nil => simp [List.foldlM]
  | cons a l ih =>
    rw [List.cons_append, foldlM_except_cons, foldlM_except_cons]
    cases f s a with
    | error e => rw [exceptErrBind, exceptErrBind, exceptErrBind]
    | ok s₁ => rw [exceptOkBind, exceptOkBind, ih]

theorem foldlM_except_inv {σ α : Type} (f : σ → α → Except PyErr σ) (P : σ → Prop)
    (hstep : ∀ s a s', P s → f s a = .ok s' → P s') :
    ∀ (l : List α) (s s' : σ), P s → l.foldlM f s = .ok s' → P s' := by
  intro l
  induction l with
  | nil =>
    intro s s' hP h
    simp [List.foldlM, pure, Except.pure] at h
    exact h ▸ hP
  | cons a l ih =>
    intro s s' hP h
    rw [foldlM_except_cons] at h
    cases hf : f s a with
    | error e => rw [hf, exceptErrBind] at h; cases h
    | ok s₁ =>
      rw [hf, exceptOkBind] at h
      exact ih s₁ s' (hstep s a s₁ hP hf) h

/-! ### Row-scan lemmas -/

theorem scanStep_shape {f t : String}
    {acc s' : List (InstKey × FromVal) × List (InstKey × ToVal)} {row : Row}
    (h : scanStep f t acc row = .ok s') :
    (∃ kv, parseFromRow row = .ok kv ∧ s' = (dictInsert acc.1 kv.1 kv.2, acc.2)) ∨
    (∃ kv, parseToRow row = .ok kv ∧ s' = (acc.1, dictInsert acc.2 kv.1 kv.2)) ∨
    s' = acc := by
  unfold scanStep at h
  cases hc : getItem row "configuration" with
  | error e => rw [hc, exceptErrBind] at h; cases h
  | ok conf =>
    rw [hc, exceptOkBind] at h
    by_cases h1 : conf = f
    · rw [if_pos h1] at h
      cases hp : parseFromRow row with
      | error e => rw [hp, exceptErrBind] at h; cases h
      | ok kv =>
        rw [hp, exceptOkBind] at h
        simp only [pure, Except.pure, Except.ok.injEq] at h
        exact Or.inl ⟨kv, rfl, h.symm⟩
    · rw [if_neg h1] at h
      by_cases h2 : conf = t
      · rw [if_pos h2] at h
        cases hp : parseToRow row with
        | error e => rw [hp, exceptErrBind] at h; cases h
        | ok kv =>
          rw [hp, exceptOkBind] at h
          simp only [pure, Except.pure, Except.ok.injEq] at h
          exact Or.inr (Or.inl ⟨kv, rfl, h.symm⟩)
      · rw [if_neg h2] at h
        simp only [pure, Except.pure, Except.ok.injEq] at h
        exact Or.inr (Or.inr h.symm)

theorem scan_nodup {rows : List Row} {f t : String}
    {fs : List (InstKey × FromVal)} {ts : List (InstKey × ToVal)}
    (h : scanRows rows f t = .ok (fs, ts)) :
    (dictKeys fs).Nodup ∧ (dictKeys ts).Nodup := by
  have := foldlM_except_inv (scanStep f t)
    (fun st => (dictKeys st.1).Nodup ∧ (dictKeys st.2).Nodup)
    (fun s a s' hP hstep => by
      rcases scanStep_shape hstep with ⟨kv, _, h2⟩ | ⟨kv, _, h2⟩ | h2
      · exact h2 ▸ ⟨nodup_dictKeys_dictInsert hP.1, hP.2⟩
      · exact h2 ▸ ⟨hP.1, nodup_dictKeys_dictInsert hP.2⟩
      · exact h2 ▸ hP)
    rows ([], []) (fs, ts) (by simp [dictKeys]) h
  exact this

theorem scanStep_same_conf {c : String} {acc s'} {row : Row}
    (h : scanStep c c acc row = .ok s') : s'.2 = acc.2 := by
  unfold scanStep at h
  cases hc : getItem row "configuration" with
  | error e => rw [hc, exceptErrBind] at h; cases h
  | ok conf =>
    rw [hc, exceptOkBind] at h
    by_cases h1 : conf = c
    · rw [if_pos h1] at h
      cases hp : parseFromRow row with
      | error e => rw [hp, exceptErrBind] at h; cases h
      | ok kv =>
        rw [hp, exceptOkBind] at h
        simp only [pure, Except.pure, Except.ok.injEq] at h
        rw [← h]
    · rw [if_neg h1, if_neg h1] at h
      simp only [pure, Except.pure, Except.ok.injEq] at h
      rw [← h]

theorem scan_same_conf_to_empty {rows : List Row} {c : String}
    {fs : List (InstKey × FromVal)} {ts : List (InstKey × ToVal)}
    (h : scanRows rows c c = .ok (fs, ts)) : ts = [] := by
  have := foldlM_except_inv (scanStep c c) (fun st => st.2 = [])
    (fun s a s' hP hstep => (scanStep_same_conf hstep).trans hP)
    rows ([], []) (fs, ts) rfl h
  exact this

theorem scanStep_from_row {f t : String} {row : Row} {kv : InstKey × FromVal}
    (acc : List (InstKey × FromVal) × List (InstKey × ToVal))
    (hc : getItem row "configuration" = .ok f) (hp : parseFromRow row = .ok kv) :
    scanStep f t acc row = .ok (dictInsert acc.1 kv.1 kv.2, acc.2) := by
  unfold scanStep
  rw [hc, exceptOkBind, if_pos rfl, hp, exceptOkBind]
  rfl

/-! ### Classification lemmas -/

/-- Occurrence of an instance key somewhere in the `status_changes` dict. -/
def memStatus (ch : PerformanceChanges) (k : InstKey) : Prop :=
  ∃ p li, (p, li) ∈ ch.status_changes ∧ k ∈ li

/-- Occurrence of an instance key in `time_changes` (as the first two
components of an entry). -/
def memTime (ch : PerformanceChanges) (k : InstKey) : Prop :=
  ∃ ft tt, (k.1, k.2, ft, tt) ∈ ch.time_changes

/-- Occurrence of an instance key in `obj_changes`. -/
def memObj (ch : PerformanceChanges) (k : InstKey) : Prop :=
  ∃ fo t2 mx, (k.1, k.2, fo, t2, mx) ∈ ch.obj_changes

/-- Occurrence of an instance key in `missing_instances`. -/
def memMissing (ch : PerformanceChanges) (k : InstKey) : Prop :=
  k ∈ ch.missing_instances

theorem pyDiv_error_shape {a b : PFloat} {e : PyErr}
    (h : pyDiv a b = .error e) : e = .zeroDivision := by
  cases b with
  | num q =>
    simp only [pyDiv] at h
    by_cases hq : q = 0
    · rw [if_pos hq] at h
      injection h with h2
      exact h2.symm
    · rw [if_neg hq] at h
      cases a <;> simp at h
  | inf => cases a <;> simp [pyDiv] at h
  | ninf => cases a <;> simp [pyDiv] at h
  | nan => cases a <;> simp [pyDiv] at h

theorem classify_cases {ch ch' : PerformanceChanges} {k : InstKey} {fv : FromVal}
    {tv? : Option ToVal} {td od : PFloat}
    (h : classify ch k fv tv? td od = .ok ch') :
    (tv? = none ∧
      ch' = { ch with missing_instances := ch.missing_instances ++ [k] }) ∨
    (∃ tv, tv? = some tv ∧ fv.status ≠ tv.status ∧
      ch' = { ch with status_changes := statusAppend ch.status_changes (fv.status, tv.status) k }) ∨
    (∃ tv r, tv? = some tv ∧ fv.status = tv.status ∧ timeBranch fv ∧
      pyDiv (pySub tv.time fv.time) fv.time = .ok r ∧
      ((pyGt (pyAbs r) td = true ∧
        ch' = { ch with time_changes := ch.time_changes ++ [(k.1, k.2, fv.time, tv.time)] }) ∨
       (pyGt (pyAbs r) td = false ∧ ch' = ch))) ∨
    (∃ tv r, tv? = some tv ∧ fv.status = tv.status ∧ ¬ timeBranch fv ∧ objBranch fv ∧
      pyDiv (pySub tv.objective fv.objective) fv.objective = .ok r ∧
      ((pyGt (pyAbs r) od = true ∧
        ch' = { ch with obj_changes := ch.obj_changes ++ [(k.1, k.2, fv.objective, tv.objective, decide (fv.method = "maximize"))] }) ∨
       (pyGt (pyAbs r) od = false ∧ ch' = ch))) ∨
    (∃ tv, tv? = some tv ∧ fv.status = tv.status ∧ ¬ timeBranch fv ∧ ¬ objBranch fv ∧
      ch' = ch) := by
  cases tv? with
  | none =>
    left
    refine ⟨rfl, ?_⟩
    simp only [classify, Except.ok.injEq] at h
    exact h.symm
  | some tv =>
    simp only [classify] at h
    by_cases h1 : fv.status ≠ tv.status
    · rw [if_pos h1] at h
      simp only [Except.ok.injEq] at h
      exact Or.inr (Or.inl ⟨tv, rfl, h1, h.symm⟩)
    · rw [if_neg h1] at h
      push_neg at h1
      by_cases h2 : timeBranch fv
      · rw [if_pos h2] at h
        cases hdiv : pyDiv (pySub tv.time fv.time) fv.time with
        | error e => simp only [hdiv] at h; cases h
        | ok r =>
          simp only [hdiv] at h
          by_cases h3 : pyGt (pyAbs r) td = true
          · rw [if_pos h3] at h
            simp only [Except.ok.injEq] at h
            exact Or.inr (Or.inr (Or.inl ⟨tv, r, rfl, h1, h2, hdiv, Or.inl ⟨h3, h.symm⟩⟩))
          · rw [if_neg h3] at h
            simp only [Except.ok.injEq] at h
            exact Or.inr (Or.inr (Or.inl ⟨tv, r, rfl, h1, h2, hdiv,
              Or.inr ⟨Bool.eq_false_iff.mpr h3, h.symm⟩⟩))
      · rw [if_neg h2] at h
        by_cases h4 : objBranch fv
        · rw [if_pos h4] at h
          cases hdiv : pyDiv (pySub tv.objective fv.objective) fv.objective with
          | error e => simp only [hdiv] at h; cases h
          | ok r =>
            simp only [hdiv] at h
            by_cases h3 : pyGt (pyAbs r) od = true
            · rw [if_pos h3] at h
              simp only [Except.ok.injEq] at h
              exact Or.inr (Or.inr (Or.inr (Or.inl ⟨tv, r, rfl, h1, h2, h4, hdiv,
                Or.inl ⟨h3, h.symm⟩⟩)))
            · rw [if_neg h3] at h
              simp only [Except.ok.injEq] at h
              exact Or.inr (Or.inr (Or.inr (Or.inl ⟨tv, r, rfl, h1, h2, h4, hdiv,
                Or.inr ⟨Bool.eq_false_iff.mpr h3, h.symm⟩⟩)))
        · rw [if_neg h4] at h
          simp only [Except.ok.injEq] at h
          exact Or.inr (Or.inr (Or.inr (Or.inr ⟨tv, rfl, h1, h2, h4, h.symm⟩)))

theorem classify_error_shape {ch : PerformanceChanges} {k : InstKey} {fv : FromVal}
    {tv? : Option ToVal} {td od : PFloat} {e : PyErr}
    (h : classify ch k fv tv? td od = .error e) : e = .zeroDivision := by
  cases tv? with
  | none => simp [classify] at h
  | some tv =>
    simp only [classify] at h
    by_cases h1 : fv.status ≠ tv.status
    · rw [if_pos h1] at h; cases h
    · rw [if_neg h1] at h
      by_cases h2 : timeBranch fv
      · rw [if_pos h2] at h
        cases hdiv : pyDiv (pySub tv.time fv.time) fv.time with
        | error e₂ =>
          simp only [hdiv, Except.error.injEq] at h
          exact h ▸ pyDiv_error_shape hdiv
        | ok r =>
          simp only [hdiv] at h
          by_cases h3 : pyGt (pyAbs r) td = true
          · rw [if_pos h3] at h; cases h
          · rw [if_neg h3] at h; cases h
      · rw [if_neg h2] at h
        by_cases h4 : objBranch fv
        · rw [if_pos h4] at h
          cases hdiv : pyDiv (pySub tv.objective fv.objective) fv.objective with
          | error e₂ =>
            simp only [hdiv, Except.error.injEq] at h
            exact h ▸ pyDiv_error_shape hdiv
          | ok r =>
            simp only [hdiv] at h
            by_cases h3 : pyGt (pyAbs r) od = true
            · rw [if_pos h3] at h; cases h
            · rw [if_neg h3] at h; cases h
        · rw [if_neg h4] at h; cases h

theorem mem_statusAppend_iff {d : List ((String × String) × List InstKey)}
    {p : String × String} {k k' : InstKey} (hnd : (dictKeys d).Nodup) :
    (∃ p₁ li, (p₁, li) ∈ statusAppend d p k ∧ k' ∈ li) ↔
      (∃ p₁ li, (p₁, li) ∈ d ∧ k' ∈ li) ∨ k' = k := by
  unfold statusAppend dictInsert
  cases hl : alookup p d with
  | none =>
    simp only [Option.getD_none, List.nil_append]
    constructor
    · rintro ⟨p₁, li, hmem, hk⟩
      rcases List.mem_append.mp hmem with hm | hm
      · exact Or.inl ⟨p₁, li, hm, hk⟩
      · simp only [List.mem_singleton] at hm
        injection hm with hm1 hm2
        subst hm2
        simp only [List.mem_singleton] at hk
        exact Or.inr hk
    · rintro (⟨p₁, li, hmem, hk⟩ | hk)
      · exact ⟨p₁, li, List.mem_append_left _ hmem, hk⟩
      · exact ⟨p, [k], List.mem_append_right _ (List.mem_singleton_self _), by simp [hk]⟩
  | some old =>
    simp only [Option.getD_some]
    constructor
    · rintro ⟨p₁, li, hmem, hk⟩
      rcases List.mem_map.mp hmem with ⟨⟨a, b⟩, hab, hf⟩
      by_cases hap : a = p
      · subst hap
        simp only [if_pos rfl] at hf
        injection hf with hf1 hf2
        subst hf1; subst hf2
        rcases List.mem_append.mp hk with hk1 | hk1
        · exact Or.inl ⟨a, old, alookup_mem hl, hk1⟩
        · simp only [List.mem_singleton] at hk1
          exact Or.inr hk1
      · simp only [if_neg hap] at hf
        injection hf with hf1 hf2
        subst hf1; subst hf2
        exact Or.inl ⟨a, b, hab, hk⟩
    · rintro (⟨p₁, li, hmem, hk⟩ | hk)
      · by_cases hap : p₁ = p
        · subst hap
          have : li = old := by
            have := mem_alookup hnd hmem
            rw [this] at hl
            injection hl
          subst this
          refine ⟨p₁, li ++ [k], List.mem_map.mpr ⟨(p₁, li), hmem, by simp⟩, ?_⟩
          exact List.mem_append_left _ hk
        · exact ⟨p₁, li, List.mem_map.mpr ⟨(p₁, li), hmem, by simp [hap]⟩, hk⟩
      · subst hk
        refine ⟨p, old ++ [k'], List.mem_map.mpr ⟨(p, old), alookup_mem hl, by simp⟩, ?_⟩
        exact List.mem_append_right _ (List.mem_singleton_self _)

theorem classify_status_nodup {ch ch' : PerformanceChanges} {k : InstKey}
    {fv : FromVal} {tv? : Option ToVal} {td od : PFloat}
    (hnd : (dictKeys ch.status_changes).Nodup)
    (h : classify ch k fv tv? td od = .ok ch') :
    (dictKeys ch'.status_changes).Nodup := by
  rcases classify_cases h with ⟨_, h2⟩ | ⟨tv, _, _, h2⟩ |
    ⟨tv, r, _, _, _, _, ⟨_, h2⟩ | ⟨_, h2⟩⟩ | ⟨tv, r, _, _, _, _, _, ⟨_, h2⟩ | ⟨_, h2⟩⟩ |
    ⟨tv, _, _, _, _, h2⟩ <;> subst h2 <;>
    first
      | exact hnd
      | exact nodup_dictKeys_dictInsert hnd

theorem classify_memMissing_iff {ch ch' : PerformanceChanges} {k : InstKey}
    {fv : FromVal} {tv? : Option ToVal} {td od : PFloat}
    (h : classify ch k fv tv? td od = .ok ch') (k' : InstKey) :
    memMissing ch' k' ↔ memMissing ch k' ∨ (tv? = none ∧ k' = k) := by
  rcases classify_cases h with ⟨h1, h2⟩ | ⟨tv, h1, _, h2⟩ |
    ⟨tv, r, h1, _, _, _, ⟨_, h2⟩ | ⟨_, h2⟩⟩ | ⟨tv, r, h1, _, _, _, _, ⟨_, h2⟩ | ⟨_, h2⟩⟩ |
    ⟨tv, h1, _, _, _, h2⟩ <;> subst h2 <;> simp [memMissing, h1]

theorem classify_memStatus_iff {ch ch' : PerformanceChanges} {k : InstKey}
    {fv : FromVal} {tv? : Option ToVal} {td od : PFloat}
    (hnd : (dictKeys ch.status_changes).Nodup)
    (h : classify ch k fv tv? td od = .ok ch') (k' : InstKey) :
    memStatus ch' k' ↔ memStatus ch k' ∨
      (∃ tv, tv? = some tv ∧ fv.status ≠ tv.status ∧ k' = k) := by
  rcases classify_cases h with ⟨h1, h2⟩ | ⟨tv, h1, h3, h2⟩ |
    ⟨tv, r, h1, h3, _, _, ⟨_, h2⟩ | ⟨_, h2⟩⟩ |
    ⟨tv, r, h1, h3, _, _, _, ⟨_, h2⟩ | ⟨_, h2⟩⟩ |
    ⟨tv, h1, h3, _, _, h2⟩ <;> subst h2
  · simp only [memStatus, h1]
    constructor
    · exact fun hs => Or.inl hs
    · rintro (hs | ⟨tv, htv, _⟩)
      · exact hs
      · cases htv
  · subst h1
    simp only [memStatus]
    rw [mem_statusAppend_iff hnd]
    constructor
    · rintro (hs | hk)
      · exact Or.inl hs
      · exact Or.inr ⟨tv, rfl, h3, hk⟩
    · rintro (hs | ⟨tv₁, htv, _, hk⟩)
      · exact Or.inl hs
      · exact Or.inr hk
  all_goals
    subst h1
    simp only [memStatus]
    constructor
    · exact fun hs => Or.inl hs
    · rintro (hs | ⟨tv₁, htv, hne, hk⟩)
      · exact hs
      · injection htv with htv1
        subst htv1
        exact absurd h3 hne

theorem classify_time_iff {ch ch' : PerformanceChanges} {k : InstKey}
    {fv : FromVal} {tv? : Option ToVal} {td od : PFloat}
    (h : classify ch k fv tv? td od = .ok ch') (e : TimeEntry) :
    e ∈ ch'.time_changes ↔ e ∈ ch.time_changes ∨
      (∃ tv r, tv? = some tv ∧ fv.status = tv.status ∧ timeBranch fv ∧
        pyDiv (pySub tv.time fv.time) fv.time = .ok r ∧ pyGt (pyAbs r) td = true ∧
        e = (k.1, k.2, fv.time, tv.time)) := by
  rcases classify_cases h with ⟨h1, h2⟩ | ⟨tv, h1, h3, h2⟩ |
    ⟨tv, r, h1, h3, h4, h5, ⟨h6, h2⟩ | ⟨h6, h2⟩⟩ |
    ⟨tv, r, h1, h3, h4, h5, h6, ⟨h7, h2⟩ | ⟨h7, h2⟩⟩ |
    ⟨tv, h1, h3, h4, h5, h2⟩ <;> subst h2
  · subst h1
    simp only []
    constructor
    · exact fun hs => Or.inl hs
    · rintro (hs | ⟨tv, r, htv, _⟩)
      · exact hs
      · cases htv
  · subst h1
    simp only []
    constructor
    · exact fun hs => Or.inl hs
    · rintro (hs | ⟨tv₁, r₁, htv, hst, _⟩)
      · exact hs
      · injection htv with htv1
        subst htv1
        exact absurd hst h3
  · subst h1
    simp only [List.mem_append, List.mem_singleton]
    constructor
    · rintro (hs | hs)
      · exact Or.inl hs
      · exact Or.inr ⟨tv, r, rfl, h3, h4, h5, h6, hs⟩
    · rintro (hs | ⟨tv₁, r₁, htv, _, _, hdiv₁, _, he⟩)
      · exact Or.inl hs
      · injection htv with htv1
        subst htv1
        exact Or.inr he
  · subst h1
    constructor
    · exact fun hs => Or.inl hs
    · rintro (hs | ⟨tv₁, r₁, htv, _, _, hdiv₁, hgt₁, _⟩)
      · exact hs
      · injection htv with htv1
        subst htv1
        rw [h5] at hdiv₁
        injection hdiv₁ with hr
        subst hr
        rw [h6] at hgt₁
        cases hgt₁
  · subst h1
    constructor
    · exact fun hs => Or.inl hs
    · rintro (hs | ⟨tv₁, r₁, htv, _, hbr, _⟩)
      · exact hs
      · exact absurd hbr h4
  · subst h1
    constructor
    · exact fun hs => Or.inl hs
    · rintro (hs | ⟨tv₁, r₁, htv, _, hbr, _⟩)
      · exact hs
      · exact absurd hbr h4
  · subst h1
    constructor
    · exact fun hs => Or.inl hs
    · rintro (hs | ⟨tv₁, r₁, htv, _, hbr, _⟩)
      · exact hs
      · exact absurd hbr h4

theorem classify_obj_iff {ch ch' : PerformanceChanges} {k : InstKey}
    {fv : FromVal} {tv? : Option ToVal} {td od : PFloat}
    (h : classify ch k fv tv? td od = .ok ch') (e : ObjEntry) :
    e ∈ ch'.obj_changes ↔ e ∈ ch.obj_changes ∨
      (∃ tv r, tv? = some tv ∧ fv.status = tv.status ∧ ¬ timeBranch fv ∧ objBranch fv ∧
        pyDiv (pySub tv.objective fv.objective) fv.objective = .ok r ∧
        pyGt (pyAbs r) od = true ∧
        e = (k.1, k.2, fv.objective, tv.objective, decide (fv.method = "maximize"))) := by
  rcases classify_cases h with ⟨h1, h2⟩ | ⟨tv, h1, h3, h2⟩ |
    ⟨tv, r, h1, h3, h4, h5, ⟨h6, h2⟩ | ⟨h6, h2⟩⟩ |
    ⟨tv, r, h1, h3, h4, h5, h6, ⟨h7, h2⟩ | ⟨h7, h2⟩⟩ |
    ⟨tv, h1, h3, h4, h5, h2⟩ <;> subst h2
  · subst h1
    constructor
    · exact fun hs => Or.inl hs
    · rintro (hs | ⟨tv, r, htv, _⟩)
      · exact hs
      · cases htv
  · subst h1
    constructor
    · exact fun hs => Or.inl hs
    · rintro (hs | ⟨tv₁, r₁, htv, hst, _⟩)
      · exact hs
      · injection htv with htv1
        subst htv1
        exact absurd hst h3
  · subst h1
    constructor
    · exact fun hs => Or.inl hs
    · rintro (hs | ⟨tv₁, r₁, htv, _, hnbr, _⟩)
      · exact hs
      · exact absurd h4 hnbr
  · subst h1
    constructor
    · exact fun hs => Or.inl hs
    · rintro (hs | ⟨tv₁, r₁, htv, _, hnbr, _⟩)
      · exact hs
      · exact absurd h4 hnbr
  · subst h1
    simp only [List.mem_append, List.mem_singleton]
    constructor
    · rintro (hs | hs)
      · exact Or.inl hs
      · exact Or.inr ⟨tv, r, rfl, h3, h4, h5, h6, h7, hs⟩
    · rintro (hs | ⟨tv₁, r₁, htv, _, _, _, hdiv₁, _, he⟩)
      · exact Or.inl hs
      · injection htv with htv1
        subst htv1
        exact Or.inr he
  · subst h1
    constructor
    · exact fun hs => Or.inl hs
    · rintro (hs | ⟨tv₁, r₁, htv, _, _, _, hdiv₁, hgt₁, _⟩)
      · exact hs
      · injection htv with htv1
        subst htv1
        rw [h6] at hdiv₁
        injection hdiv₁ with hr
        subst hr
        rw [h7] at hgt₁
        cases hgt₁
  · subst h1
    constructor
    · exact fun hs => Or.inl hs
    · rintro (hs | ⟨tv₁, r₁, htv, _, _, hobr, _⟩)
      · exact hs
      · exact absurd hobr h5

theorem foldClassify_nil (ts : List (InstKey × ToVal)) (td od : PFloat)
    (ch : PerformanceChanges) : foldClassify ts td od ch [] = .ok ch := rfl

theorem foldClassify_cons (ts : List (InstKey × ToVal)) (td od : PFloat)
    (ch : PerformanceChanges) (kv : InstKey × FromVal) (l : List (InstKey × FromVal)) :
    foldClassify ts td od ch (kv :: l) =
      (classify ch kv.1 kv.2 (alookup kv.1 ts) td od) >>=
        fun ch' => foldClassify ts td od ch' l := by
  simp [foldClassify, List.foldlM]

theorem foldClassify_missing_iff {ts : List (InstKey × ToVal)} {td od : PFloat} :
    ∀ {l : List (InstKey × FromVal)} {ch ch' : PerformanceChanges},
      foldClassify ts td od ch l = .ok ch' → ∀ k' : InstKey,
      (memMissing ch' k' ↔ memMissing ch k' ∨
        ∃ fv, (k', fv) ∈ l ∧ alookup k' ts = none) := by
  intro l
  induction l with
  | nil =>
    intro ch ch' h k'
    rw [foldClassify_nil] at h
    injection h with h1
    subst h1
    simp
  | cons kv tail ih =>
    intro ch ch' h k'
    rw [foldClassify_cons] at h
    cases hc : classify ch kv.1 kv.2 (alookup kv.1 ts) td od with
    | error e => rw [hc, exceptErrBind] at h; cases h
    | ok ch₁ =>
      rw [hc, exceptOkBind] at h
      rw [ih h k', classify_memMissing_iff hc k']
      constructor
      · rintro ((hm | ⟨hnone, hk⟩) | ⟨fv, hmem, hnone⟩)
        · exact Or.inl hm
        · subst hk
          exact Or.inr ⟨kv.2, List.mem_cons_self _ _, hnone⟩
        · exact Or.inr ⟨fv, List.mem_cons_of_mem _ hmem, hnone⟩
      · rintro (hm | ⟨fv, hmem, hnone⟩)
        · exact Or.inl (Or.inl hm)
        · rcases List.mem_cons.mp hmem with hm1 | hm1
          · have : k' = kv.1 := congrArg Prod.fst hm1
            exact Or.inl (Or.inr ⟨this ▸ hnone, this⟩)
          · exact Or.inr ⟨fv, hm1, hnone⟩

theorem foldClassify_status_nodup {ts : List (InstKey × ToVal)} {td od : PFloat} :
    ∀ {l : List (InstKey × FromVal)} {ch ch' : PerformanceChanges},
      (dictKeys ch.status_changes).Nodup →
      foldClassify ts td od ch l = .ok ch' →
      (dictKeys ch'.status_changes).Nodup := by
  intro l
  induction l with
  | nil =>
    intro ch ch' hnd h
    rw [foldClassify_nil] at h
    injection h with h1
    subst h1
    exact hnd
  | cons kv tail ih =>
    intro ch ch' hnd h
    rw [foldClassify_cons] at h
    cases hc : classify ch kv.1 kv.2 (alookup kv.1 ts) td od with
    | error e => rw [hc, exceptErrBind] at h; cases h
    | ok ch₁ =>
      rw [hc, exceptOkBind] at h
      exact ih (classify_status_nodup hnd hc) h

theorem foldClassify_status_iff {ts : List (InstKey × ToVal)} {td od : PFloat} :
    ∀ {l : List (InstKey × FromVal)} {ch ch' : PerformanceChanges},
      (dictKeys ch.status_changes).Nodup →
      foldClassify ts td od ch l = .ok ch' → ∀ k' : InstKey,
      (memStatus ch' k' ↔ memStatus ch k' ∨
        ∃ fv tv, (k', fv) ∈ l ∧ alookup k' ts = some tv ∧ fv.status ≠ tv.status) := by
  intro l
  induction l with
  | nil =>
    intro ch ch' _ h k'
    rw [foldClassify_nil] at h
    injection h with h1
    subst h1
    simp
  | cons kv tail ih =>
    intro ch ch' hnd h k'
    rw [foldClassify_cons] at h
    cases hc : classify ch kv.1 kv.2 (alookup kv.1 ts) td od with
    | error e => rw [hc, exceptErrBind] at h; cases h
    | ok ch₁ =>
      rw [hc, exceptOkBind] at h
      rw [ih (classify_status_nodup hnd hc) h k', classify_memStatus_iff hnd hc k']
      constructor
      · rintro ((hm | ⟨tv, htv, hne, hk⟩) | ⟨fv, tv, hmem, hsome, hne⟩)
        · exact Or.inl hm
        · subst hk
          exact Or.inr ⟨kv.2, tv, List.mem_cons_self _ _, htv, hne⟩
        · exact Or.inr ⟨fv, tv, List.mem_cons_of_mem _ hmem, hsome, hne⟩
      · rintro (hm | ⟨fv, tv, hmem, hsome, hne⟩)
        · exact Or.inl (Or.inl hm)
        · rcases List.mem_cons.mp hmem with hm1 | hm1
          · have hk : k' = kv.1 := congrArg Prod.fst hm1
            have hv : fv = kv.2 := congrArg Prod.snd hm1
            subst hv
            exact Or.inl (Or.inr ⟨tv, hk ▸ hsome, hne, hk⟩)
          · exact Or.inr ⟨fv, tv, hm1, hsome, hne⟩

theorem foldClassify_timeEntry_iff {ts : List (InstKey × ToVal)} {td od : PFloat} :
    ∀ {l : List (InstKey × FromVal)} {ch ch' : PerformanceChanges},
      foldClassify ts td od ch l = .ok ch' → ∀ e : TimeEntry,
      (e ∈ ch'.time_changes ↔ e ∈ ch.time_changes ∨
        ∃ k fv tv r, (k, fv) ∈ l ∧ alookup k ts = some tv ∧
          fv.status = tv.status ∧ timeBranch fv ∧
          pyDiv (pySub tv.time fv.time) fv.time = .ok r ∧
          pyGt (pyAbs r) td = true ∧ e = (k.1, k.2, fv.time, tv.time)) := by
  intro l
  induction l with
  | nil =>
    intro ch ch' h e
    rw [foldClassify_nil] at h
    injection h with h1
    subst h1
    simp
  | cons kv tail ih =>
    intro ch ch' h e
    rw [foldClassify_cons] at h
    cases hc : classify ch kv.1 kv.2 (alookup kv.1 ts) td od with
    | error er => rw [hc, exceptErrBind] at h; cases h
    | ok ch₁ =>
      rw [hc, exceptOkBind] at h
      rw [ih h e, classify_time_iff hc e]
      constructor
      · rintro ((hm | ⟨tv, r, htv, hst, hbr, hdiv, hgt, he⟩) |
          ⟨k, fv, tv, r, hmem, hsome, hst, hbr, hdiv, hgt, he⟩)
        · exact Or.inl hm
        · exact Or.inr ⟨kv.1, kv.2, tv, r, List.mem_cons_self _ _, htv, hst, hbr, hdiv, hgt, he⟩
        · exact Or.inr ⟨k, fv, tv, r, List.mem_cons_of_mem _ hmem, hsome, hst, hbr, hdiv, hgt, he⟩
      · rintro (hm | ⟨k, fv, tv, r, hmem, hsome, hst, hbr, hdiv, hgt, he⟩)
        · exact Or.inl (Or.inl hm)
        · rcases List.mem_cons.mp hmem with hm1 | hm1
          · have hk : k = kv.1 := congrArg Prod.fst hm1
            have hv : fv = kv.2 := congrArg Prod.snd hm1
            subst hk; subst hv
            exact Or.inl (Or.inr ⟨tv, r, hsome, hst, hbr, hdiv, hgt, he⟩)
          · exact Or.inr ⟨k, fv, tv, r, hm1, hsome, hst, hbr, hdiv, hgt, he⟩

theorem foldClassify_objEntry_iff {ts : List (InstKey × ToVal)} {td od : PFloat} :
    ∀ {l : List (InstKey × FromVal)} {ch ch' : PerformanceChanges},
      foldClassify ts td od ch l = .ok ch' → ∀ e : ObjEntry,
      (e ∈ ch'.obj_changes ↔ e ∈ ch.obj_changes ∨
        ∃ k fv tv r, (k, fv) ∈ l ∧ alookup k ts = some tv ∧
          fv.status = tv.status ∧ ¬ timeBranch fv ∧ objBranch fv ∧
          pyDiv (pySub tv.objective fv.objective) fv.objective = .ok r ∧
          pyGt (pyAbs r) od = true ∧
          e = (k.1, k.2, fv.objective, tv.objective, decide (fv.method = "maximize"))) := by
  intro l
  induction l with
  | nil =>
    intro ch ch' h e
    rw [foldClassify_nil] at h
    injection h with h1
    subst h1
    simp
  | cons kv tail ih =>
    intro ch ch' h e
    rw [foldClassify_cons] at h
    cases hc : classify ch kv.1 kv.2 (alookup kv.1 ts) td od with
    | error er => rw [hc, exceptErrBind] at h; cases h
    | ok ch₁ =>
      rw [hc, exceptOkBind] at h
      rw [ih h e, classify_obj_iff hc e]
      constructor
      · rintro ((hm | ⟨tv, r, htv, hst, hnbr, hobr, hdiv, hgt, he⟩) |
          ⟨k, fv, tv, r, hmem, hsome, hst, hnbr, hobr, hdiv, hgt, he⟩)
        · exact Or.inl hm
        · exact Or.inr ⟨kv.1, kv.2, tv, r, List.mem_cons_self _ _, htv, hst, hnbr, hobr,
            hdiv, hgt, he⟩
        · exact Or.inr ⟨k, fv, tv, r, List.mem_cons_of_mem _ hmem, hsome, hst, hnbr, hobr,
            hdiv, hgt, he⟩
      · rintro (hm | ⟨k, fv, tv, r, hmem, hsome, hst, hnbr, hobr, hdiv, hgt, he⟩)
        · exact Or.inl (Or.inl hm)
        · rcases List.mem_cons.mp hmem with hm1 | hm1
          · have hk : k = kv.1 := congrArg Prod.fst hm1
            have hv : fv = kv.2 := congrArg Prod.snd hm1
            subst hk; subst hv
            exact Or.inl (Or.inr ⟨tv, r, hsome, hst, hnbr, hobr, hdiv, hgt, he⟩)
          · exact Or.inr ⟨k, fv, tv, r, hm1, hsome, hst, hnbr, hobr, hdiv, hgt, he⟩

theorem compare_eq_fold {rows : List Row} {f t : String}
    {fs : List (InstKey × FromVal)} {ts : List (InstKey × ToVal)} {td od : PFloat}
    (hscan : scanRows rows f t = .ok (fs, ts)) :
    compare_configurations rows f t td od =
      foldClassify ts td od { time_delta := td, obj_delta := od } fs := by
  unfold compare_configurations
  rw [hscan, exceptOkBind]

theorem foldClassify_empty_ts (td od : PFloat) :
    ∀ (l : List (InstKey × FromVal)) (ch : PerformanceChanges),
      foldClassify [] td od ch l =
        .ok { ch with missing_instances := ch.missing_instances ++ dictKeys l } := by
  intro l
  induction l with
  | nil =>
    intro ch
    rw [foldClassify_nil]
    simp [dictKeys]
  | cons kv tail ih =>
    intro ch
    rw [foldClassify_cons]
    have h0 : alookup kv.1 ([] : List (InstKey × ToVal)) = none := rfl
    rw [h0]
    have hcl : classify ch kv.1 kv.2 none td od =
        .ok { ch with missing_instances := ch.missing_instances ++ [kv.1] } := rfl
    rw [hcl, exceptOkBind, ih]
    simp [dictKeys, List.append_assoc]

theorem classify_zero_abort {ch : PerformanceChanges} {k : InstKey} {fv : FromVal}
    {tv : ToVal} {td od : PFloat} (hst : fv.status = tv.status)
    (hzero : (timeBranch fv ∧ fv.time = .num 0) ∨
      (¬ timeBranch fv ∧ objBranch fv ∧ fv.objective = .num 0)) :
    classify ch k fv (some tv) td od = .error .zeroDivision := by
  simp only [classify]
  rw [if_neg (by simp [hst])]
  rcases hzero with ⟨hbr, h0⟩ | ⟨hnbr, hobr, h0⟩
  · rw [if_pos hbr, h0]
    have hd : pyDiv (pySub tv.time (.num 0)) (.num 0) = .error .zeroDivision := by
      simp [pyDiv]
    rw [hd]
  · rw [if_neg hnbr, if_pos hobr, h0]
    have hd : pyDiv (pySub tv.objective (.num 0)) (.num 0) = .error .zeroDivision := by
      simp [pyDiv]
    rw [hd]

theorem foldClassify_abort {ts : List (InstKey × ToVal)} {td od : PFloat}
    {k : InstKey} {fv : FromVal} {tv : ToVal} :
    ∀ {l : List (InstKey × FromVal)}, (k, fv) ∈ l → alookup k ts = some tv →
      fv.status = tv.status →
      ((timeBranch fv ∧ fv.time = .num 0) ∨
        (¬ timeBranch fv ∧ objBranch fv ∧ fv.objective = .num 0)) →
      ∀ ch, foldClassify ts td od ch l = .error .zeroDivision := by
  intro l
  induction l with
  | nil => intro hmem; simp at hmem
  | cons kv tail ih =>
    intro hmem hsome hst hzero ch
    rw [foldClassify_cons]
    rcases List.mem_cons.mp hmem with hm1 | hm1
    · have hk : kv.1 = k := (congrArg Prod.fst hm1).symm
      have hv : kv.2 = fv := (congrArg Prod.snd hm1).symm
      rw [hk, hv, hsome, classify_zero_abort hst hzero, exceptErrBind]
    · cases hc : classify ch kv.1 kv.2 (alookup kv.1 ts) td od with
      | error e =>
        rw [exceptErrBind]
        rw [classify_error_shape hc]
      | ok ch₁ =>
        rw [exceptOkBind]
        exact ih hm1 hsome hst hzero ch₁

/-! ### Concrete rows used by witnesses and counterexamples -/

/-- A `confA` row: `(confA, m1, d1, p1, SATISFIED, 10.0, , satisfy)`. -/
def rowFromA : Row :=
  [("configuration", "confA"), ("model", "m1"), ("data_file", "d1"), ("problem", "p1"),
   ("status", "SATISFIED"), ("time", "10.0"), ("objective", ""), ("method", "satisfy")]

/-- A `confB` row for the same instance: `(confB, m1, d1, p1, SATISFIED, 15.0, , satisfy)`. -/
def rowToB : Row :=
  [("configuration", "confB"), ("model", "m1"), ("data_file", "d1"), ("problem", "p1"),
   ("status", "SATISFIED"), ("time", "15.0"), ("objective", ""), ("method", "satisfy")]

/-- A `confA` row whose `time` field is empty, hence parsed as `0.0`. -/
def rowZeroTime : Row :=
  [("configuration", "confA"), ("model", "m2"), ("data_file", "d2"), ("problem", "p2"),
   ("status", "OPTIMAL_SOLUTION"), ("time", ""), ("objective", "3.0"), ("method", "minimize")]

/-- The matching `confB` row with a nonzero time. -/
def rowToZero : Row :=
  [("configuration", "confB"), ("model", "m2"), ("data_file", "d2"), ("problem", "p2"),
   ("status", "OPTIMAL_SOLUTION"), ("time", "5.0"), ("objective", "3.0"), ("method", "minimize")]

/-- A second `confA` row for the same instance key as `rowFromA` but with a
different time, to exercise duplicate-key overwriting. -/
def rowFromA2 : Row :=
  [("configuration", "confA"), ("model", "m1"), ("data_file", "d1"), ("problem", "p1"),
   ("status", "SATISFIED"), ("time", "99.0"), ("objective", ""), ("method", "satisfy")]

theorem parseParts_ten : parseDecimalParts "10.0" = some (false, 10, 0, 1) := by decide

theorem parseParts_fifteen : parseDecimalParts "15.0" = some (false, 15, 0, 1) := by decide

theorem parseParts_five : parseDecimalParts "5.0" = some (false, 5, 0, 1) := by decide

theorem parseParts_three : parseDecimalParts "3.0" = some (false, 3, 0, 1) := by decide

theorem parseParts_ninetynine : parseDecimalParts "99.0" = some (false, 99, 0, 1) := by decide

/-! ### C1 -/

/-- C1 (amended): comparing a configuration against itself yields empty
`status_changes`, `time_changes` and `obj_changes`, but `missing_instances`
holds every instance key of the configuration: with
`from_conf = to_conf = c` the `if`/`elif` bucketing sends every matching
row to `from_stats`, leaving `to_stats` empty, so every key is reported
missing. -/
theorem c1_self_compare (rows : List Row) (c : String) (td od : PFloat)
    (fs : List (InstKey × FromVal)) (ts : List (InstKey × ToVal))
    (hscan : scanRows rows c c = .ok (fs, ts)) :
    compare_configurations rows c c td od =
      .ok { time_delta := td, obj_delta := od, status_changes := [], time_changes := [],
            obj_changes := [], missing_instances := dictKeys fs } := by
  have hts : ts = [] := scan_same_conf_to_empty hscan
  subst hts
  rw [compare_eq_fold hscan, foldClassify_empty_ts]
  simp

/-- C1 witness: the amended statement applied to a one-row table. -/
theorem c1_self_compare_witness :
    compare_configurations [rowFromA] "confA" "confA" (.num (1/10)) (.num (1/10)) =
      .ok { time_delta := .num (1/10), obj_delta := .num (1/10), status_changes := [],
            time_changes := [], obj_changes := [],
            missing_instances := [("m1", "d1")] } := by
  have hscan : scanRows [rowFromA] "confA" "confA" =
      .ok ([((("m1" : String), ("d1" : String)),
             (⟨"SATISFIED", .num 10, .nan, "satisfy"⟩ : FromVal))], []) := by
    simp [scanRows, List.foldlM, scanStep, parseFromRow, rowFromA, getItem, alookup,
      parseTimeField, parseObjField, pyFloat, parseParts_ten, ratOfParts, dictInsert,
      Except.instMonad, Except.bind, Except.pure]
  rw [c1_self_compare [rowFromA] "confA" (.num (1/10)) (.num (1/10)) _ _ hscan]
  rfl

/-- C1 counterexample: on the same one-row table the original claim's
`missing_instances = []` fails — the single instance of `confA` is
reported missing when `confA` is compared against itself. -/
theorem c1_counterexample :
    ∃ ch, compare_configurations [rowFromA] "confA" "confA" (.num (1/10)) (.num (1/10)) =
      .ok ch ∧ ch.missing_instances ≠ [] := by
  refine ⟨_, rfl, ?_⟩
  decide

/-! ### C2 -/

/-- C2 (amended): a shared instance key that reaches the relative-change
computation with denominator `from_time = 0` (or `from_obj = 0`) is not
specially guarded, but Python float division by zero raises
`ZeroDivisionError`, so the whole comparison aborts with that error
instead of completing with an infinite/NaN relative change. -/
theorem c2_zero_denominator_aborts (rows : List Row) (f t : String) (td od : PFloat)
    (fs : List (InstKey × FromVal)) (ts : List (InstKey × ToVal))
    (k : InstKey) (fv : FromVal) (tv : ToVal)
    (hscan : scanRows rows f t = .ok (fs, ts))
    (hmem : (k, fv) ∈ fs) (hsome : alookup k ts = some tv)
    (hst : fv.status = tv.status)
    (hzero : (timeBranch fv ∧ fv.time = .num 0) ∨
      (¬ timeBranch fv ∧ objBranch fv ∧ fv.objective = .num 0)) :
    compare_configurations rows f t td od = .error .zeroDivision := by
  rw [compare_eq_fold hscan]
  exact foldClassify_abort hmem hsome hst hzero _

/-- C2 witness: a table whose `confA` row has an empty `time` (parsed as
`0.0`) and status `OPTIMAL_SOLUTION` on both sides makes the comparison
abort with `ZeroDivisionError`. -/
theorem c2_zero_denominator_witness :
    compare_configurations [rowZeroTime, rowToZero] "confA" "confB"
      (.num (1/10)) (.num (1/10)) = .error .zeroDivision := by
  have hscan : scanRows [rowZeroTime, rowToZero] "confA" "confB" =
      .ok ([((("m2" : String), ("d2" : String)),
             (⟨"OPTIMAL_SOLUTION", .num 0, .num 3, "minimize"⟩ : FromVal))],
           [((("m2" : String), ("d2" : String)),
             (⟨"OPTIMAL_SOLUTION", .num 5, .num 3⟩ : ToVal))]) := by
    simp [scanRows, List.foldlM, scanStep, parseFromRow, parseToRow, rowZeroTime, rowToZero,
      getItem, alookup, parseTimeField, parseObjField, pyFloat, parseParts_five,
      parseParts_three, ratOfParts, dictInsert, Except.instMonad, Except.bind, Except.pure]
  exact c2_zero_denominator_aborts [rowZeroTime, rowToZero] "confA" "confB"
    (.num (1/10)) (.num (1/10)) _ _ ("m2", "d2")
    ⟨"OPTIMAL_SOLUTION", .num 0, .num 3, "minimize"⟩
    ⟨"OPTIMAL_SOLUTION", .num 5, .num 3⟩ hscan (by decide) (by decide) rfl
    (Or.inl ⟨Or.inl rfl, rfl⟩)

/-- C2 counterexample: the claim as stated says the computation completes
and propagates an infinity/NaN; on this concrete table the comparison
instead aborts with `ZeroDivisionError` (proved by direct evaluation). -/
theorem c2_counterexample :
    compare_configurations [rowZeroTime, rowToZero] "confA" "confB"
      (.num (1/10)) (.num (1/10)) = .error .zeroDivision := by
  rfl

/-! ### C10 -/

/-- C10: when a later row of the same configuration carries the same
instance key, the dict assignment overwrites the earlier binding
(last-row-wins): appending a from-row `r` with key `k` and parsed value
`fv` makes `from_stats` map `k` to `fv`, whatever earlier rows said, and
leaves `to_stats` unchanged. -/
theorem c10_last_row_wins (rows : List Row) (r : Row) (f t : String)
    (fs : List (InstKey × FromVal)) (ts : List (InstKey × ToVal))
    (k : InstKey) (fv : FromVal)
    (hscan : scanRows rows f t = .ok (fs, ts))
    (hconf : getItem r "configuration" = .ok f)
    (hparse : parseFromRow r = .ok (k, fv)) :
    scanRows (rows ++ [r]) f t = .ok (dictInsert fs k fv, ts) ∧
      alookup k (dictInsert fs k fv) = some fv := by
  constructor
  · unfold scanRows
    rw [foldlM_except_append]
    have h1 : List.foldlM (scanStep f t) ([], []) rows = .ok (fs, ts) := hscan
    rw [h1, exceptOkBind, foldlM_except_cons,
      scanStep_from_row (fs, ts) hconf hparse, exceptOkBind]
    rfl
  · exact alookup_dictInsert_self _ _ _

/-- C10 witness: two `confA` rows with the same key `(m1, d1)` and times
`10.0` then `99.0`; the scan keeps only the later row's value. -/
theorem c10_last_row_wins_witness :
    scanRows [rowFromA, rowFromA2] "confA" "confB" =
      .ok (dictInsert [((("m1" : String), ("d1" : String)),
            (⟨"SATISFIED", .num 10, .nan, "satisfy"⟩ : FromVal))]
            ("m1", "d1") ⟨"SATISFIED", .num 99, .nan, "satisfy"⟩, []) ∧
      alookup (("m1" : String), ("d1" : String))
        (dictInsert [((("m1" : String), ("d1" : String)),
            (⟨"SATISFIED", .num 10, .nan, "satisfy"⟩ : FromVal))]
            ("m1", "d1") ⟨"SATISFIED", .num 99, .nan, "satisfy"⟩) =
        some ⟨"SATISFIED", .num 99, .nan, "satisfy"⟩ := by
  have hscan : scanRows [rowFromA] "confA" "confB" =
      .ok ([((("m1" : String), ("d1" : String)),
             (⟨"SATISFIED", .num 10, .nan, "satisfy"⟩ : FromVal))], []) := by
    simp [scanRows, List.foldlM, scanStep, parseFromRow, rowFromA, getItem, alookup,
      parseTimeField, parseObjField, pyFloat, parseParts_ten, ratOfParts, dictInsert,
      Except.instMonad, Except.bind, Except.pure]
  have hparse : parseFromRow rowFromA2 =
      .ok ((("m1" : String), ("d1" : String)),
           (⟨"SATISFIED", .num 99, .nan, "satisfy"⟩ : FromVal)) := by
    simp [parseFromRow, rowFromA2, getItem, alookup, parseTimeField, parseObjField,
      pyFloat, parseParts_ninetynine, ratOfParts, Except.instMonad, Except.bind, Except.pure]
  exact c10_last_row_wins [rowFromA] rowFromA2 "confA" "confB" _ _ ("m1", "d1")
    ⟨"SATISFIED", .num 99, .nan, "satisfy"⟩ hscan (by simp [getItem, rowFromA2, alookup]) hparse

theorem foldClassify_memTime_iff {ts : List (InstKey × ToVal)} {td od : PFloat}
    {l : List (InstKey × FromVal)} {ch₀ ch : PerformanceChanges}
    (h : foldClassify ts td od ch₀ l = .ok ch) (hinit : ch₀.time_changes = [])
    (k : InstKey) :
    memTime ch k ↔ ∃ fv tv r, (k, fv) ∈ l ∧ alookup k ts = some tv ∧
      fv.status = tv.status ∧ timeBranch fv ∧
      pyDiv (pySub tv.time fv.time) fv.time = .ok r ∧ pyGt (pyAbs r) td = true := by
  unfold memTime
  constructor
  · rintro ⟨ft, tt, hmem⟩
    rcases (foldClassify_timeEntry_iff h _).mp hmem with hm |
      ⟨k', fv, tv, r, hmem', hsome, hst, hbr, hdiv, hgt, he⟩
    · rw [hinit] at hm
      simp at hm
    · simp only [Prod.mk.injEq] at he
      have hk : k' = k := Prod.ext he.1.symm he.2.1.symm
      subst hk
      exact ⟨fv, tv, r, hmem', hsome, hst, hbr, hdiv, hgt⟩
  · rintro ⟨fv, tv, r, hmem', hsome, hst, hbr, hdiv, hgt⟩
    exact ⟨fv.time, tv.time, (foldClassify_timeEntry_iff h _).mpr
      (Or.inr ⟨k, fv, tv, r, hmem', hsome, hst, hbr, hdiv, hgt, rfl⟩)⟩

theorem foldClassify_memObj_iff {ts : List (InstKey × ToVal)} {td od : PFloat}
    {l : List (InstKey × FromVal)} {ch₀ ch : PerformanceChanges}
    (h : foldClassify ts td od ch₀ l = .ok ch) (hinit : ch₀.obj_changes = [])
    (k : InstKey) :
    memObj ch k ↔ ∃ fv tv r, (k, fv) ∈ l ∧ alookup k ts = some tv ∧
      fv.status = tv.status ∧ ¬ timeBranch fv ∧ objBranch fv ∧
      pyDiv (pySub tv.objective fv.objective) fv.objective = .ok r ∧
      pyGt (pyAbs r) od = true := by
  unfold memObj
  constructor
  · rintro ⟨fo, t2, mx, hmem⟩
    rcases (foldClassify_objEntry_iff h _).mp hmem with hm |
      ⟨k', fv, tv, r, hmem', hsome, hst, hnbr, hobr, hdiv, hgt, he⟩
    · rw [hinit] at hm
      simp at hm
    · simp only [Prod.mk.injEq] at he
      have hk : k' = k := Prod.ext he.1.symm he.2.1.symm
      subst hk
      exact ⟨fv, tv, r, hmem', hsome, hst, hnbr, hobr, hdiv, hgt⟩
  · rintro ⟨fv, tv, r, hmem', hsome, hst, hnbr, hobr, hdiv, hgt⟩
    exact ⟨fv.objective, tv.objective, decide (fv.method = "maximize"),
      (foldClassify_objEntry_iff h _).mpr
        (Or.inr ⟨k, fv, tv, r, hmem', hsome, hst, hnbr, hobr, hdiv, hgt, rfl⟩)⟩

/-! ### C3 -/

/-- C3: classification is mutually exclusive — an instance key appears in
at most one of the four containers; a key present on both sides with
identical status is never in `status_changes` or `missing_instances`; a
key absent from `to_stats` is in `missing_instances` and nowhere else. -/
theorem c3_classification_exclusive (rows : List Row) (f t : String) (td od : PFloat)
    (fs : List (InstKey × FromVal)) (ts : List (InstKey × ToVal))
    (ch : PerformanceChanges)
    (hscan : scanRows rows f t = .ok (fs, ts))
    (hcmp : compare_configurations rows f t td od = .ok ch) :
    ∀ k : InstKey,
      (¬ (memStatus ch k ∧ memTime ch k) ∧ ¬ (memStatus ch k ∧ memObj ch k) ∧
       ¬ (memStatus ch k ∧ memMissing ch k) ∧ ¬ (memTime ch k ∧ memObj ch k) ∧
       ¬ (memTime ch k ∧ memMissing ch k) ∧ ¬ (memObj ch k ∧ memMissing ch k)) ∧
      (∀ fv tv, alookup k fs = some fv → alookup k ts = some tv →
        fv.status = tv.status → ¬ memStatus ch k ∧ ¬ memMissing ch k) ∧
      (∀ fv, alookup k fs = some fv → alookup k ts = none →
        memMissing ch k ∧ ¬ memStatus ch k ∧ ¬ memTime ch k ∧ ¬ memObj ch k) := by
  intro k
  have hnodup : (dictKeys fs).Nodup := (scan_nodup hscan).1
  rw [compare_eq_fold hscan] at hcmp
  have Hmiss := foldClassify_missing_iff hcmp k
  have Hstat := foldClassify_status_iff (by simp [dictKeys]) hcmp k
  have Htime := foldClassify_memTime_iff hcmp rfl k
  have Hobj := foldClassify_memObj_iff hcmp rfl k
  simp only [memMissing, memStatus, List.not_mem_nil, false_and, exists_false,
    false_or] at Hmiss Hstat
  refine ⟨⟨?_, ?_, ?_, ?_, ?_, ?_⟩, ?_, ?_⟩
  · rintro ⟨hs, htm⟩
    obtain ⟨fv₁, tv₁, hm₁, hl₁, hne₁⟩ := Hstat.mp hs
    obtain ⟨fv₂, tv₂, r₂, hm₂, hl₂, heq₂, _⟩ := Htime.mp htm
    have : fv₁ = fv₂ := by
      have e1 := mem_alookup hnodup hm₁
      have e2 := mem_alookup hnodup hm₂
      rw [e1] at e2
      injection e2
    subst this
    rw [hl₁] at hl₂
    injection hl₂ with h3
    subst h3
    exact hne₁ heq₂
  · rintro ⟨hs, hob⟩
    obtain ⟨fv₁, tv₁, hm₁, hl₁, hne₁⟩ := Hstat.mp hs
    obtain ⟨fv₂, tv₂, r₂, hm₂, hl₂, heq₂, _⟩ := Hobj.mp hob
    have : fv₁ = fv₂ := by
      have e1 := mem_alookup hnodup hm₁
      have e2 := mem_alookup hnodup hm₂
      rw [e1] at e2
      injection e2
    subst this
    rw [hl₁] at hl₂
    injection hl₂ with h3
    subst h3
    exact hne₁ heq₂
  · rintro ⟨hs, hmi⟩
    obtain ⟨fv₁, tv₁, hm₁, hl₁, _⟩ := Hstat.mp hs
    obtain ⟨fv₂, hm₂, hl₂⟩ := Hmiss.mp hmi
    rw [hl₁] at hl₂
    cases hl₂
  · rintro ⟨htm, hob⟩
    obtain ⟨fv₁, tv₁, r₁, hm₁, hl₁, _, hbr₁, _⟩ := Htime.mp htm
    obtain ⟨fv₂, tv₂, r₂, hm₂, hl₂, _, hnbr₂, _⟩ := Hobj.mp hob
    have : fv₁ = fv₂ := by
      have e1 := mem_alookup hnodup hm₁
      have e2 := mem_alookup hnodup hm₂
      rw [e1] at e2
      injection e2
    subst this
    exact hnbr₂ hbr₁
  · rintro ⟨htm, hmi⟩
    obtain ⟨fv₁, tv₁, r₁, hm₁, hl₁, _⟩ := Htime.mp htm
    obtain ⟨fv₂, hm₂, hl₂⟩ := Hmiss.mp hmi
    rw [hl₁] at hl₂
    cases hl₂
  · rintro ⟨hob, hmi⟩
    obtain ⟨fv₁, tv₁, r₁, hm₁, hl₁, _⟩ := Hobj.mp hob
    obtain ⟨fv₂, hm₂, hl₂⟩ := Hmiss.mp hmi
    rw [hl₁] at hl₂
    cases hl₂
  · intro fv tv hlf hlt hsteq
    constructor
    · intro hs
      obtain ⟨fv₁, tv₁, hm₁, hl₁, hne₁⟩ := Hstat.mp hs
      have : fv₁ = fv := by
        have e1 := mem_alookup hnodup hm₁
        rw [hlf] at e1
        injection e1 with h5
        exact h5.symm
      subst this
      rw [hlt] at hl₁
      injection hl₁ with h3
      subst h3
      exact hne₁ hsteq
    · intro hmi
      obtain ⟨fv₂, hm₂, hl₂⟩ := Hmiss.mp hmi
      rw [hlt] at hl₂
      cases hl₂
  · intro fv hlf hlt
    refine ⟨Hmiss.mpr ⟨fv, alookup_mem hlf, hlt⟩, ?_, ?_, ?_⟩
    · intro hs
      obtain ⟨fv₁, tv₁, hm₁, hl₁, _⟩ := Hstat.mp hs
      rw [hlt] at hl₁
      cases hl₁
    · intro htm
      obtain ⟨fv₁, tv₁, r₁, hm₁, hl₁, _⟩ := Htime.mp htm
      rw [hlt] at hl₁
      cases hl₁
    · intro hob
      obtain ⟨fv₁, tv₁, r₁, hm₁, hl₁, _⟩ := Hobj.mp hob
      rw [hlt] at hl₁
      cases hl₁

/-- From-side stats of the two-row example table. -/
def fsAB : List (InstKey × FromVal) :=
  [(("m1", "d1"), ⟨"SATISFIED", .num 10, .nan, "satisfy"⟩)]

/-- To-side stats of the two-row example table. -/
def tsAB : List (InstKey × ToVal) :=
  [(("m1", "d1"), ⟨"SATISFIED", .num 15, .nan⟩)]

/-- Comparator output on the two-row example table. -/
def chAB : PerformanceChanges :=
  { time_delta := .num (1/10), obj_delta := .num (1/10),
    time_changes := [("m1", "d1", .num 10, .num 15)] }

theorem scanAB_eval : scanRows [rowFromA, rowToB] "confA" "confB" = .ok (fsAB, tsAB) := by
  simp [scanRows, List.foldlM, scanStep, parseFromRow, parseToRow, rowFromA, rowToB,
    getItem, alookup, parseTimeField, parseObjField, pyFloat, parseParts_ten,
    parseParts_fifteen, ratOfParts, dictInsert, fsAB, tsAB,
    Except.instMonad, Except.bind, Except.pure]

theorem compareAB_eval :
    compare_configurations [rowFromA, rowToB] "confA" "confB"
      (.num (1/10)) (.num (1/10)) = .ok chAB := by
  simp [compare_configurations, scanRows, List.foldlM, scanStep, parseFromRow, parseToRow,
    rowFromA, rowToB, getItem, alookup, parseTimeField, parseObjField, pyFloat,
    parseParts_ten, parseParts_fifteen, ratOfParts, dictInsert, foldClassify, classify,
    timeBranch, objBranch, pyDiv, pySub, pyGt, pyAbs, chAB,
    Except.instMonad, Except.bind, Except.pure, Except.map]
  norm_num
  rw [show |(1:ℚ)/2| = 1/2 from abs_of_pos (by norm_num)]
  norm_num

/-- C3 witness: on the two-row example table the key `(m1, d1)` (shared,
identical status) is in neither `status_changes` nor `missing_instances`,
and not in two containers at once. -/
theorem c3_classification_exclusive_witness :
    ∃ ch, compare_configurations [rowFromA, rowToB] "confA" "confB"
        (.num (1/10)) (.num (1/10)) = .ok ch ∧
      ¬ (memTime ch ("m1", "d1") ∧ memMissing ch ("m1", "d1")) ∧
      ¬ memStatus ch ("m1", "d1") ∧ ¬ memMissing ch ("m1", "d1") := by
  have H := c3_classification_exclusive [rowFromA, rowToB] "confA" "confB"
    (.num (1/10)) (.num (1/10)) fsAB tsAB chAB scanAB_eval compareAB_eval ("m1", "d1")
  have H2 := H.2.1 ⟨"SATISFIED", .num 10, .nan, "satisfy"⟩ ⟨"SATISFIED", .num 15, .nan⟩
    rfl rfl rfl
  exact ⟨chAB, compareAB_eval, H.1.2.2.2.2.1, H2.1, H2.2⟩

/-! ### C6 -/

/-- C6: for a shared instance key with identical status on both sides
that takes the timing branch (status `OPTIMAL_SOLUTION`, or `SATISFIED`
with method `satisfy`), the entry `(model, data_file, from_time, to_time)`
is recorded in `time_changes` if and only if the absolute relative time
change `|(to_time - from_time) / from_time|` strictly exceeds
`time_delta`. -/
theorem c6_time_threshold_iff (rows : List Row) (f t : String) (qd : ℚ) (od : PFloat)
    (fs : List (InstKey × FromVal)) (ts : List (InstKey × ToVal))
    (ch : PerformanceChanges) (k : InstKey) (fv : FromVal) (tv : ToVal) (qf qt : ℚ)
    (hscan : scanRows rows f t = .ok (fs, ts))
    (hcmp : compare_configurations rows f t (.num qd) od = .ok ch)
    (hlf : alookup k fs = some fv) (hlt : alookup k ts = some tv)
    (hst : fv.status = tv.status) (hbr : timeBranch fv)
    (hft : fv.time = .num qf) (hqf : qf ≠ 0) (htt : tv.time = .num qt) :
    ((k.1, k.2, fv.time, tv.time) ∈ ch.time_changes ↔ |(qt - qf) / qf| > qd) := by
  have hnodup := (scan_nodup hscan).1
  rw [compare_eq_fold hscan] at hcmp
  rw [foldClassify_timeEntry_iff hcmp (k.1, k.2, fv.time, tv.time)]
  have hdiv : pyDiv (pySub tv.time fv.time) fv.time = .ok (.num ((qt - qf) / qf)) := by
    rw [hft, htt]
    simp [pySub, pyDiv, hqf]
  constructor
  · rintro (hm | ⟨k', fv', tv', r', hmem', hsome', hst', hbr', hdiv', hgt', he'⟩)
    · simp at hm
    · simp only [Prod.mk.injEq] at he'
      have hk : k' = k := Prod.ext he'.1.symm he'.2.1.symm
      subst hk
      have hfv : fv' = fv := by
        have e := mem_alookup hnodup hmem'
        rw [hlf] at e
        injection e with h5
        exact h5.symm
      subst hfv
      rw [hlt] at hsome'
      injection hsome' with h6
      subst h6
      rw [hdiv] at hdiv'
      injection hdiv' with h7
      rw [← h7] at hgt'
      simpa [pyAbs, pyGt] using hgt'
  · intro hgt
    right
    refine ⟨k, fv, tv, .num ((qt - qf) / qf), alookup_mem hlf, hlt, hst, hbr, hdiv, ?_, rfl⟩
    simp only [pyAbs, pyGt, decide_eq_true_eq]
    exact hgt

/-- C6 witness: the spec's example — `(confA, m1, d1, SATISFIED, 10.0, , satisfy)`
versus `(confB, m1, d1, SATISFIED, 15.0, , satisfy)` with threshold `0.1`
records `(m1, d1, 10.0, 15.0)` (relative change 50%). -/
theorem c6_time_threshold_witness :
    ∃ ch, compare_configurations [rowFromA, rowToB] "confA" "confB"
        (.num (1/10)) (.num (1/10)) = .ok ch ∧
      (("m1" : String), ("d1" : String), PFloat.num 10, PFloat.num 15) ∈ ch.time_changes := by
  have H := c6_time_threshold_iff [rowFromA, rowToB] "confA" "confB" (1/10) (.num (1/10))
    fsAB tsAB chAB ("m1", "d1") ⟨"SATISFIED", .num 10, .nan, "satisfy"⟩
    ⟨"SATISFIED", .num 15, .nan⟩ 10 15 scanAB_eval compareAB_eval rfl rfl rfl
    (Or.inr ⟨rfl, rfl⟩) rfl (by norm_num) rfl
  refine ⟨chAB, compareAB_eval, ?_⟩
  exact H.mpr (by rw [show |((15:ℚ) - 10) / 10| = 1/2 by rw [abs_of_pos] <;> norm_num]; norm_num)

/-! ### C9 -/

theorem parseToRow_congr {r₁ r₂ : Row}
    (hag : ∀ key, key ≠ "method" → alookup key r₁ = alookup key r₂) :
    parseToRow r₁ = parseToRow r₂ := by
  have h1 : getItem r₁ "status" = getItem r₂ "status" := by
    simp [getItem, hag "status" (by decide)]
  have h2 : getItem r₁ "time" = getItem r₂ "time" := by
    simp [getItem, hag "time" (by decide)]
  have h3 : getItem r₁ "objective" = getItem r₂ "objective" := by
    simp [getItem, hag "objective" (by decide)]
  have h4 : getItem r₁ "model" = getItem r₂ "model" := by
    simp [getItem, hag "model" (by decide)]
  have h5 : getItem r₁ "data_file" = getItem r₂ "data_file" := by
    simp [getItem, hag "data_file" (by decide)]
  simp only [parseToRow, h1, h2, h3, h4, h5]

theorem scanStep_method_blind {f t : String} (hft : f ≠ t) {r₁ r₂ : Row}
    (hag : ∀ key, key ≠ "method" → alookup key r₁ = alookup key r₂)
    (hconf : alookup "configuration" r₁ = some t)
    (acc : List (InstKey × FromVal) × List (InstKey × ToVal)) :
    scanStep f t acc r₁ = scanStep f t acc r₂ := by
  have hc2 : alookup "configuration" r₂ = some t := by
    rw [← hag "configuration" (by decide)]
    exact hconf
  have hg1 : getItem r₁ "configuration" = .ok t := by simp [getItem, hconf]
  have hg2 : getItem r₂ "configuration" = .ok t := by simp [getItem, hc2]
  have hnc : ¬ (t = f) := fun he => hft he.symm
  unfold scanStep
  rw [hg1, exceptOkBind, if_neg hnc, if_pos rfl]
  rw [hg2, exceptOkBind, if_neg hnc, if_pos rfl]
  rw [parseToRow_congr hag]

theorem scanRows_method_blind {f t : String} (hft : f ≠ t) :
    ∀ {rows₁ rows₂ : List Row},
      List.Forall₂ (fun r₁ r₂ =>
        (∀ key, key ≠ "method" → alookup key r₁ = alookup key r₂) ∧
        (r₁ = r₂ ∨ alookup "configuration" r₁ = some t)) rows₁ rows₂ →
      scanRows rows₁ f t = scanRows rows₂ f t := by
  have haux : ∀ {rows₁ rows₂ : List Row},
      List.Forall₂ (fun r₁ r₂ =>
        (∀ key, key ≠ "method" → alookup key r₁ = alookup key r₂) ∧
        (r₁ = r₂ ∨ alookup "configuration" r₁ = some t)) rows₁ rows₂ →
      ∀ acc, rows₁.foldlM (scanStep f t) acc = rows₂.foldlM (scanStep f t) acc := by
    intro rows₁ rows₂ hrel
    induction hrel with
    | nil => intro acc; rfl
    | @cons a b l₁ l₂ hR htail ih =>
      intro acc
      rw [foldlM_except_cons, foldlM_except_cons]
      have hhead : scanStep f t acc a = scanStep f t acc b := by
        rcases hR.2 with he | hconf
        · rw [he]
        · exact scanStep_method_blind hft hR.1 hconf acc
      rw [hhead]
      cases scanStep f t acc b with
      | error e => rw [exceptErrBind, exceptErrBind]
      | ok s₁ =>
        rw [exceptOkBind, exceptOkBind]
        exact ih s₁
  intro rows₁ rows₂ hrel
  exact haux hrel ([], [])

/-- C9: the comparator never reads the `method` field of to-configuration
rows — `to_stats` stores only `(status, time, objective)` — so two tables
that differ only in the `method` values of to-configuration rows produce
identical `PerformanceChanges`. -/
theorem c9_to_method_irrelevant (rows₁ rows₂ : List Row) (f t : String)
    (td od : PFloat) (hft : f ≠ t)
    (hrel : List.Forall₂ (fun r₁ r₂ =>
      (∀ key, key ≠ "method" → alookup key r₁ = alookup key r₂) ∧
      (r₁ = r₂ ∨ alookup "configuration" r₁ = some t)) rows₁ rows₂) :
    compare_configurations rows₁ f t td od = compare_configurations rows₂ f t td od := by
  unfold compare_configurations
  rw [scanRows_method_blind hft hrel]

/-- A `confB` row identical to `rowToB` except for its `method` value. -/
def rowToBmax : Row :=
  [("configuration", "confB"), ("model", "m1"), ("data_file", "d1"), ("problem", "p1"),
   ("status", "SATISFIED"), ("time", "15.0"), ("objective", ""), ("method", "maximize")]

/-- C9 witness: changing the to-side `method` from `satisfy` to `maximize`
leaves the comparison of the two-row example table unchanged. -/
theorem c9_to_method_irrelevant_witness :
    compare_configurations [rowFromA, rowToB] "confA" "confB" (.num (1/10)) (.num (1/10)) =
      compare_configurations [rowFromA, rowToBmax] "confA" "confB"
        (.num (1/10)) (.num (1/10)) := by
  refine c9_to_method_irrelevant [rowFromA, rowToB] [rowFromA, rowToBmax] "confA" "confB"
    (.num (1/10)) (.num (1/10)) (by decide) ?_
  refine List.Forall₂.cons ⟨fun key _ => rfl, Or.inl rfl⟩ ?_
  refine List.Forall₂.cons ⟨?_, Or.inr (by decide)⟩ List.Forall₂.nil
  intro key hk
  simp [rowToB, rowToBmax, alookup, hk]

/-! ### Sorting lemmas for the rendering order -/

theorem pyLt_asymm {a b : PFloat} (h : pyLt a b = true) : pyLt b a = false := by
  cases a <;> cases b <;> simp [pyLt] at h ⊢ <;> exact le_of_lt h

theorem pyLt_trans {a b c : PFloat} (h1 : pyLt a b = true) (h2 : pyLt b c = true) :
    pyLt a c = true := by
  cases a <;> cases b <;> cases c <;> simp [pyLt] at h1 h2 ⊢ <;> exact lt_trans h1 h2

theorem keyLt_asymm {α : Type} {a b : PFloat × α} (h : keyLt a b = true) :
    keyLt b a = false := pyLt_asymm h

theorem keyLt_trans {α : Type} {a b c : PFloat × α} (h1 : keyLt a b = true)
    (h2 : keyLt b c = true) : keyLt a c = true := pyLt_trans h1 h2

theorem sortInsert_perm {α : Type} (lt : α → α → Bool) (x : α) (l : List α) :
    List.Perm (sortInsert lt x l) (x :: l) := by
  induction l with
  | nil => exact List.Perm.refl _
  | cons y ys ih =>
    unfold sortInsert
    by_cases h : lt x y = true
    · rw [if_pos h]
    · rw [if_neg h]
      exact (List.Perm.cons y ih).trans (List.Perm.swap x y ys)

theorem pySorted_perm {α : Type} (lt : α → α → Bool) (l : List α) :
    List.Perm (pySorted lt l) l := by
  suffices h : ∀ acc : List α,
      List.Perm (l.foldl (fun acc x => sortInsert lt x acc) acc) (acc ++ l) by
    simpa [pySorted] using h []
  induction l with
  | nil => intro acc; simp
  | cons x xs ih =>
    intro acc
    rw [List.foldl_cons]
    exact ((ih (sortInsert lt x acc)).trans
      ((sortInsert_perm lt x acc).append_right xs)).trans List.perm_middle.symm

theorem sortInsert_pairwise {α : Type} {lt : α → α → Bool}
    (hasym : ∀ a b, lt a b = true → lt b a = false)
    (htrans : ∀ a b c, lt a b = true → lt b c = true → lt a c = true)
    (x : α) {l : List α} (hl : l.Pairwise (fun a b => lt b a = false)) :
    (sortInsert lt x l).Pairwise (fun a b => lt b a = false) := by
  induction l with
  | nil => simp [sortInsert]
  | cons y ys ih =>
    rcases List.pairwise_cons.mp hl with ⟨hy, hys⟩
    by_cases h : lt x y = true
    · rw [sortInsert, if_pos h]
      refine List.pairwise_cons.mpr ⟨?_, hl⟩
      intro z hz
      rcases List.mem_cons.mp hz with rfl | hz'
      · exact hasym x z h
      · cases hzx : lt z x with
        | false => rfl
        | true =>
          have := htrans z x y hzx h
          rw [hy z hz'] at this
          cases this
    · rw [sortInsert, if_neg h]
      refine List.pairwise_cons.mpr ⟨?_, ih hys⟩
      intro z hz
      have hz2 : z ∈ x :: ys := (sortInsert_perm lt x ys).mem_iff.mp hz
      rcases List.mem_cons.mp hz2 with rfl | hz'
      · exact Bool.eq_false_iff.mpr h
      · exact hy z hz'

theorem pySorted_pairwise {α : Type} {lt : α → α → Bool}
    (hasym : ∀ a b, lt a b = true → lt b a = false)
    (htrans : ∀ a b c, lt a b = true → lt b c = true → lt a c = true)
    (l : List α) :
    (pySorted lt l).Pairwise (fun a b => lt b a = false) := by
  suffices h : ∀ acc : List α, acc.Pairwise (fun a b => lt b a = false) →
      (l.foldl (fun acc x => sortInsert lt x acc) acc).Pairwise
        (fun a b => lt b a = false) by
    exact h [] (List.Pairwise.nil)
  induction l with
  | nil => intro acc hacc; simpa using hacc
  | cons x xs ih =>
    intro acc hacc
    rw [List.foldl_cons]
    exact ih (sortInsert lt x acc) (sortInsert_pairwise hasym htrans x hacc)

theorem decorateM_eq_map {α : Type} (f : α → Except PyErr PFloat) (g : α → PFloat) :
    ∀ {l : List α}, (∀ a ∈ l, f a = .ok (g a)) →
      decorateM f l = .ok (l.map (fun a => (g a, a))) := by
  intro l
  induction l with
  | nil => intro _; rfl
  | cons x xs ih =>
    intro hall
    unfold decorateM
    rw [hall x (List.mem_cons_self _ _), exceptOkBind,
      ih (fun a ha => hall a (List.mem_cons_of_mem _ ha)), exceptOkBind]
    rfl

theorem timeSortKey_eval {e : TimeEntry} {qf qt : ℚ} (h1 : e.2.2.1 = .num qf)
    (hq : qf ≠ 0) (h2 : e.2.2.2 = .num qt) :
    timeSortKey e = .ok (.num (timeRel e)) := by
  unfold timeSortKey timeRel relChange
  rw [h1, h2]
  simp [pySub, pyDiv, hq]

theorem objSortKey_eval {e : ObjEntry} {qf qt : ℚ} (h1 : e.2.2.1 = .num qf)
    (hq : qf ≠ 0) (h2 : e.2.2.2.1 = .num qt) :
    objSortKey e = .ok (.num (objRelSigned e)) := by
  unfold objSortKey objRelSigned relChange
  rw [h1, h2]
  cases hmx : e.2.2.2.2
  · simp only [pySub, pyMul, pyDiv, hq, if_false, Bool.false_eq_true, if_neg hq]
    simp [hq]
    ring
  · simp [pySub, pyMul, pyDiv, hq, mul_div_assoc]

/-! ### C5 -/

/-- C5 (amended): the rendering's `time_li` is a permutation of
`time_changes` sorted by relative time change `(to - from)/from` in
descending order; `obj_li` is a permutation of `obj_changes` sorted
ascending by the signed relative objective change as the source computes
it — positive sign for maximise entries and negated for the rest (the
sign is flipped for minimise entries, not for maximise as the claim
stated).  Stated for entries with finite endpoints and nonzero
denominators, where the sort keys are defined. -/
theorem c5_render_sort (ch : PerformanceChanges)
    (hts : ∀ e ∈ ch.time_changes, ∃ qf qt, e.2.2.1 = .num qf ∧ qf ≠ 0 ∧ e.2.2.2 = .num qt)
    (hos : ∀ e ∈ ch.obj_changes, ∃ qf qt, e.2.2.1 = .num qf ∧ qf ≠ 0 ∧
      e.2.2.2.1 = .num qt) :
    ∃ tl ol, str_time_li ch = .ok tl ∧ str_obj_li ch = .ok ol ∧
      List.Perm tl ch.time_changes ∧ List.Perm ol ch.obj_changes ∧
      tl.Pairwise (fun a b => timeRel b ≤ timeRel a) ∧
      ol.Pairwise (fun a b => objRelSigned a ≤ objRelSigned b) := by
  have hkeyT : ∀ e ∈ ch.time_changes, timeSortKey e = .ok (.num (timeRel e)) := by
    intro e he
    obtain ⟨qf, qt, h1, h2, h3⟩ := hts e he
    exact timeSortKey_eval h1 h2 h3
  have hkeyO : ∀ e ∈ ch.obj_changes, objSortKey e = .ok (.num (objRelSigned e)) := by
    intro e he
    obtain ⟨qf, qt, h1, h2, h3⟩ := hos e he
    exact objSortKey_eval h1 h2 h3
  have hdecT := decorateM_eq_map timeSortKey (fun e => PFloat.num (timeRel e)) hkeyT
  have hdecO := decorateM_eq_map objSortKey (fun e => PFloat.num (objRelSigned e)) hkeyO
  set dlT := ch.time_changes.map (fun e => (PFloat.num (timeRel e), e)) with hdlT
  set dlO := ch.obj_changes.map (fun e => (PFloat.num (objRelSigned e), e)) with hdlO
  have hshapeT : ∀ a ∈ dlT, a.1 = PFloat.num (timeRel a.2) := by
    intro a ha
    obtain ⟨e, _, he⟩ := List.mem_map.mp ha
    rw [← he]
  have hshapeO : ∀ a ∈ dlO, a.1 = PFloat.num (objRelSigned a.2) := by
    intro a ha
    obtain ⟨e, _, he⟩ := List.mem_map.mp ha
    rw [← he]
  refine ⟨((pySorted keyLt dlT.reverse).reverse).map Prod.snd,
    (pySorted keyLt dlO).map Prod.snd, ?_, ?_, ?_, ?_, ?_, ?_⟩
  · simp only [str_time_li, hdecT, exceptOkBind]
    rfl
  · simp only [str_obj_li, hdecO, exceptOkBind]
    rfl
  · have h1 : List.Perm ((pySorted keyLt dlT.reverse).reverse) dlT :=
      ((List.reverse_perm _).trans (pySorted_perm keyLt dlT.reverse)).trans
        (List.reverse_perm dlT)
    have h2 := h1.map Prod.snd
    simpa [hdlT, List.map_map, Function.comp_def] using h2
  · have h1 : List.Perm (pySorted keyLt dlO) dlO := pySorted_perm keyLt dlO
    have h2 := h1.map Prod.snd
    simpa [hdlO, List.map_map, Function.comp_def] using h2
  · have hsorted := @pySorted_pairwise (PFloat × TimeEntry) keyLt (fun a b h => keyLt_asymm h)
      (fun a b c h1 h2 => keyLt_trans h1 h2) dlT.reverse
    have hrev : ((pySorted keyLt dlT.reverse).reverse).Pairwise
        (fun a b => keyLt a b = false) := by
      rw [List.pairwise_reverse]
      exact hsorted
    rw [List.pairwise_map]
    refine hrev.imp_of_mem ?_
    intro a b ha hb hab
    have haT : a ∈ dlT := (List.reverse_perm dlT).mem_iff.mp
      ((pySorted_perm keyLt dlT.reverse).mem_iff.mp (List.mem_reverse.mp ha))
    have hbT : b ∈ dlT := (List.reverse_perm dlT).mem_iff.mp
      ((pySorted_perm keyLt dlT.reverse).mem_iff.mp (List.mem_reverse.mp hb))
    have hka := hshapeT a haT
    have hkb := hshapeT b hbT
    rw [keyLt, hka, hkb] at hab
    simp only [pyLt, decide_eq_false_iff_not, not_lt] at hab
    exact hab
  · have hsorted := @pySorted_pairwise (PFloat × ObjEntry) keyLt (fun a b h => keyLt_asymm h)
      (fun a b c h1 h2 => keyLt_trans h1 h2) dlO
    rw [List.pairwise_map]
    refine hsorted.imp_of_mem ?_
    intro a b ha hb hab
    have haO : a ∈ dlO := (pySorted_perm keyLt dlO).mem_iff.mp ha
    have hbO : b ∈ dlO := (pySorted_perm keyLt dlO).mem_iff.mp hb
    have hka := hshapeO a haO
    have hkb := hshapeO b hbO
    rw [keyLt, hkb, hka] at hab
    simp only [pyLt, decide_eq_false_iff_not, not_lt] at hab
    exact hab

/-- First objective entry of the C5 example: minimise, relative change `+1/2`. -/
def e1C5 : ObjEntry := ("m", "d1", .num 2, .num 3, false)

/-- Second objective entry of the C5 example: minimise, relative change `-1/2`. -/
def e2C5 : ObjEntry := ("m", "d2", .num 2, .num 1, false)

/-- A `PerformanceChanges` with two minimise objective entries. -/
def chC5 : PerformanceChanges :=
  { time_delta := .num 0, obj_delta := .num 0, obj_changes := [e1C5, e2C5] }

/-- C5 counterexample: the rendered objective order on `chC5` is
`[e1C5, e2C5]`, yet the claim's key — sign flipped for maximise, so the
plain relative change for these minimise entries — strictly decreases
from the first line to the second: the output is not ascending in the
claim's key.  The source flips the sign for minimise entries instead. -/
theorem c5_counterexample :
    str_obj_li chC5 = .ok [e1C5, e2C5] ∧ objRelClaim e1C5 > objRelClaim e2C5 := by
  constructor
  · simp [str_obj_li, decorateM, objSortKey, chC5, e1C5, e2C5, pySub, pyMul, pyDiv,
      pySorted, sortInsert, keyLt, pyLt, Except.instMonad, Except.bind, Except.pure]
    norm_num
  · simp [objRelClaim, e1C5, e2C5, relChange]
    norm_num

/-- C5 witness: the amended sorting statement applied to `chC5`. -/
theorem c5_render_sort_witness :
    ∃ tl ol, str_time_li chC5 = .ok tl ∧ str_obj_li chC5 = .ok ol ∧
      List.Perm tl chC5.time_changes ∧ List.Perm ol chC5.obj_changes ∧
      tl.Pairwise (fun a b => timeRel b ≤ timeRel a) ∧
      ol.Pairwise (fun a b => objRelSigned a ≤ objRelSigned b) := by
  refine c5_render_sort chC5 ?_ ?_
  · intro e he
    simp [chC5] at he
  · intro e he
    simp only [chC5] at he
    rcases List.mem_cons.mp he with rfl | he2
    · exact ⟨2, 3, rfl, by norm_num, rfl⟩
    · rcases List.mem_cons.mp he2 with rfl | he3
      · exact ⟨2, 1, rfl, by norm_num, rfl⟩
      · simp at he3

/-! ### C4 -/

/-- A row of the reporter's input with the usual columns. -/
def rowC4 : Row :=
  [("configuration", "c1"), ("model", "m1"), ("problem", "p1"),
   ("data_file", "dir/f.dzn"), ("status", "SATISFIED"), ("time", "5")]

/-- C4 (code bug): with `per_model = True` (and the other flags off) the
header schema built by `report_status` is
`["configuration", "model", "model"]` — the `per_model` flag is checked
twice and `"model"` appended twice (a leftover of a botched merge; the
file even contains a conflict marker) — while the per-row group key is
`(configuration, model)`, so the header is longer than every data row,
contradicting the spec's "appends model once" and the header/row
alignment. -/
theorem c4_duplicate_model_key :
    reportKeys false true false = ["configuration", "model", "model"] ∧
    rowKey false true false rowC4 = .ok ["c1", "m1"] ∧
    (reportKeys false true false).length ≠ (["c1", "m1"] : List String).length := by
  refine ⟨rfl, rfl, by decide⟩

/-! ### C7 -/

/-- Status fields of the rows, in row order (total: rows without the
column contribute nothing; under a successful scan every row has one). -/
def csvStatuses (rows : List Row) : List String :=
  rows.filterMap (fun r => alookup "status" r)

theorem reportStep_seen {pp pm pi : Bool} {avg : String} {acc acc' : ReportAcc}
    {row : Row} (h : reportStep pp pm pi avg acc row = .ok acc') :
    ∃ st, alookup "status" row = some st ∧
      acc'.seen_status = insert st acc.seen_status := by
  unfold reportStep at h
  cases hk : rowKey pp pm pi row with
  | error e => rw [hk, exceptErrBind] at h; cases h
  | ok key =>
    rw [hk, exceptOkBind] at h
    cases hs : getItem row "status" with
    | error e => rw [hs, exceptErrBind] at h; cases h
    | ok st =>
      rw [hs, exceptOkBind] at h
      cases ha : avgTime row avg with
      | error e => rw [ha, exceptErrBind] at h; cases h
      | ok time =>
        rw [ha, exceptOkBind] at h
        simp only [pure, Except.pure, Except.ok.injEq] at h
        refine ⟨st, ?_, ?_⟩
        · simp only [getItem] at hs
          cases hl : alookup "status" row with
          | none => rw [hl] at hs; cases hs
          | some v =>
            rw [hl] at hs
            injection hs with h2
            rw [h2]
        · rw [← h]

theorem reportStep_acc_irrelevant {pp pm pi : Bool} {avg : String} {row : Row}
    (acc₁ acc₂ : ReportAcc) {acc' : ReportAcc}
    (h : reportStep pp pm pi avg acc₁ row = .ok acc') :
    ∃ acc'', reportStep pp pm pi avg acc₂ row = .ok acc'' := by
  unfold reportStep at h ⊢
  cases hk : rowKey pp pm pi row with
  | error e => rw [hk, exceptErrBind] at h; cases h
  | ok key =>
    rw [hk, exceptOkBind] at h
    rw [exceptOkBind]
    cases hs : getItem row "status" with
    | error e => rw [hs, exceptErrBind] at h; cases h
    | ok st =>
      rw [hs, exceptOkBind] at h
      rw [exceptOkBind]
      cases ha : avgTime row avg with
      | error e => rw [ha, exceptErrBind] at h; cases h
      | ok time =>
        rw [exceptOkBind]
        exact ⟨_, rfl⟩

theorem reportFold_seen {pp pm pi : Bool} {avg : String} :
    ∀ {rows : List Row} {acc₀ acc : ReportAcc},
      rows.foldlM (reportStep pp pm pi avg) acc₀ = .ok acc →
      acc.seen_status = acc₀.seen_status ∪ (csvStatuses rows).toFinset := by
  intro rows
  induction rows with
  | nil =>
    intro acc₀ acc h
    simp only [List.foldlM, pure, Except.pure, Except.ok.injEq] at h
    subst h
    simp [csvStatuses]
  | cons row rest ih =>
    intro acc₀ acc h
    rw [foldlM_except_cons] at h
    cases hstep : reportStep pp pm pi avg acc₀ row with
    | error e => rw [hstep, exceptErrBind] at h; cases h
    | ok acc₁ =>
      rw [hstep, exceptOkBind] at h
      obtain ⟨st, hst, hseen⟩ := reportStep_seen hstep
      rw [ih h, hseen]
      have : csvStatuses (row :: rest) = st :: csvStatuses rest := by
        simp [csvStatuses, hst]
      rw [this]
      simp only [List.toFinset_cons]
      ext x
      simp [Finset.mem_union, Finset.mem_insert]

theorem reportFold_ok_perm {pp pm pi : Bool} {avg : String} :
    ∀ {rows rows' : List Row} {acc₀ acc : ReportAcc},
      List.Perm rows' rows →
      rows.foldlM (reportStep pp pm pi avg) acc₀ = .ok acc →
      ∀ acc₁, ∃ acc', rows'.foldlM (reportStep pp pm pi avg) acc₁ = .ok acc' := by
  have hall : ∀ {rows : List Row} {acc₀ acc : ReportAcc},
      rows.foldlM (reportStep pp pm pi avg) acc₀ = .ok acc →
      ∀ row ∈ rows, ∀ acc₁, ∃ acc', reportStep pp pm pi avg acc₁ row = .ok acc' := by
    intro rows
    induction rows with
    | nil => intro acc₀ acc _ row hrow; simp at hrow
    | cons r rest ih =>
      intro acc₀ acc h row hrow
      rw [foldlM_except_cons] at h
      cases hstep : reportStep pp pm pi avg acc₀ r with
      | error e => rw [hstep, exceptErrBind] at h; cases h
      | ok acc₁ =>
        rw [hstep, exceptOkBind] at h
        rcases List.mem_cons.mp hrow with rfl | hrow'
        · exact fun acc₂ => reportStep_acc_irrelevant acc₀ acc₂ hstep
        · exact ih h row hrow'
  have hok : ∀ {rows : List Row},
      (∀ row ∈ rows, ∀ acc₁, ∃ acc', reportStep pp pm pi avg acc₁ row = .ok acc') →
      ∀ acc₁, ∃ acc', rows.foldlM (reportStep pp pm pi avg) acc₁ = .ok acc' := by
    intro rows
    induction rows with
    | nil => intro _ acc₁; exact ⟨acc₁, rfl⟩
    | cons r rest ih =>
      intro hrows acc₁
      obtain ⟨acc₂, hacc₂⟩ := hrows r (List.mem_cons_self _ _) acc₁
      obtain ⟨acc', hacc'⟩ := ih (fun row hrow => hrows row (List.mem_cons_of_mem _ hrow)) acc₂
      exact ⟨acc', by rw [foldlM_except_cons, hacc₂, exceptOkBind, hacc']⟩
  intro rows rows' acc₀ acc hperm h acc₁
  exact hok (fun row hrow => hall h row (hperm.mem_iff.mp hrow)) acc₁

/-- C7: the status columns of `report_status` are exactly the distinct
status values of the input rows in descending lexicographic order, and
this column order is invariant under any permutation of the rows. -/
theorem c7_status_columns (pp pm pi : Bool) (avg : String) (rows rows' : List Row)
    (acc : ReportAcc) (hperm : List.Perm rows' rows)
    (hscan : reportScan pp pm pi avg rows = .ok acc) :
    statusColumns acc.seen_status =
      (((csvStatuses rows).toFinset.sort (· ≤ ·)).reverse : List String) ∧
    ∃ acc', reportScan pp pm pi avg rows' = .ok acc' ∧
      statusColumns acc'.seen_status = statusColumns acc.seen_status := by
  have hseen : acc.seen_status = (csvStatuses rows).toFinset := by
    have := reportFold_seen hscan
    simpa using this
  constructor
  · rw [statusColumns, hseen]
  · obtain ⟨acc', hacc'⟩ := reportFold_ok_perm hperm hscan ⟨∅, []⟩
    refine ⟨acc', hacc', ?_⟩
    have hseen' : acc'.seen_status = (csvStatuses rows').toFinset := by
      have := reportFold_seen hacc'
      simpa using this
    have hsame : (csvStatuses rows').toFinset = (csvStatuses rows).toFinset :=
      List.toFinset_eq_of_perm _ _ (hperm.filterMap _)
    rw [statusColumns, statusColumns, hseen, hseen', hsame]

/-- A reporter row with status `SATISFIED`. -/
def rowR1 : Row := [("configuration", "c1"), ("status", "SATISFIED"), ("time", "5")]

/-- A reporter row with status `ERROR`. -/
def rowR2 : Row := [("configuration", "c1"), ("status", "ERROR"), ("time", "7")]

/-- C7 witness: a two-row table and its swap produce the same status
column order, the distinct statuses sorted descending. -/
theorem c7_status_columns_witness :
    ∃ acc, reportScan false false false "time" [rowR1, rowR2] = .ok acc ∧
      (statusColumns acc.seen_status =
        (((csvStatuses [rowR1, rowR2]).toFinset.sort (· ≤ ·)).reverse : List String) ∧
       ∃ acc', reportScan false false false "time" [rowR2, rowR1] = .ok acc' ∧
         statusColumns acc'.seen_status = statusColumns acc.seen_status) := by
  refine ⟨_, rfl, c7_status_columns false false false "time" [rowR1, rowR2]
    [rowR2, rowR1] _ (List.Perm.swap _ _ _) rfl⟩

/-! ### C8 -/

/-- C8 (amended): a missing CSV column that is read by subscript
(`row[...]` — e.g. `configuration`) raises `KeyError` on the first row
that needs it and aborts the scan in both `compare_configurations` and
`report_status`; but the reporter reads its chosen average field with
`row.get(avg, 0)`, so a missing average column does not raise — the
value silently defaults to `0`. -/
theorem c8_missing_columns (r : Row) (rows : List Row) (f t : String) (td od : PFloat)
    (pp pm pi : Bool) (avg : String)
    (hconf : alookup "configuration" r = none) (havg : alookup avg r = none) :
    compare_configurations (r :: rows) f t td od = .error (.keyError "configuration") ∧
    reportScan pp pm pi avg (r :: rows) = .error (.keyError "configuration") ∧
    avgTime r avg = .ok (.num 0) := by
  have hget : getItem r "configuration" = .error (.keyError "configuration") := by
    simp [getItem, hconf]
  refine ⟨?_, ?_, ?_⟩
  · have hstep : scanStep f t ([], []) r = .error (.keyError "configuration") := by
      unfold scanStep
      rw [hget, exceptErrBind]
    unfold compare_configurations scanRows
    rw [foldlM_except_cons, hstep, exceptErrBind, exceptErrBind]
  · have hkey : rowKey pp pm pi r = .error (.keyError "configuration") := by
      unfold rowKey
      rw [hget, exceptErrBind]
    have hstep : reportStep pp pm pi avg ⟨∅, []⟩ r = .error (.keyError "configuration") := by
      unfold reportStep
      rw [hkey, exceptErrBind]
    unfold reportScan
    rw [foldlM_except_cons, hstep, exceptErrBind]
  · simp [avgTime, havg]

/-- A row missing both the `configuration` and the `time` columns. -/
def rowBare : Row := [("status", "SATISFIED")]

/-- C8 witness: the amended statement applied to `rowBare` with the
average field `time`. -/
theorem c8_missing_columns_witness :
    compare_configurations [rowBare] "c1" "c2" (.num 0) (.num 0) =
      .error (.keyError "configuration") ∧
    reportScan false false false "time" [rowBare] = .error (.keyError "configuration") ∧
    avgTime rowBare "time" = .ok (.num 0) :=
  c8_missing_columns rowBare [] "c1" "c2" (.num 0) (.num 0) false false false "time"
    (by decide) (by decide)

/-- A full row lacking only the `time` column. -/
def rowNoTime : Row :=
  [("configuration", "c1"), ("model", "m1"), ("problem", "p1"), ("data_file", "d1"),
   ("status", "SATISFIED"), ("objective", "")]

/-- C8 counterexample: the claim says a table missing the reporter's
chosen average column fails with a lookup error; in fact the scan
succeeds — `row.get(avg, 0)` never raises. -/
theorem c8_counterexample :
    ∃ acc, reportScan false false false "time" [rowNoTime] = .ok acc :=
  ⟨_, rfl⟩
